import Mathlib

/-!
Verification of the diff-normalization, property-extraction, rendering and
publish pipeline of the akeneo-snapshot-publisher-confluence service.

The Rust sources are shallowly embedded:
* `serde_json::Value` becomes the inductive `Json`; `serde_json::Map` is an
  association list in iteration order (a JSON object has unique keys, which
  appears as an explicit hypothesis where a claim needs it); JSON numbers are
  `Int` (their display only matters through `toString`).
* `src/diff.rs` (`parse_diff_data`, `parse_changed_item`, `flatten_changes`,
  `format_value`, `extract_item_properties`) and `src/renderer.rs` (diff page
  and snapshot page-tree rendering) are translated function by function.
* `src/confluence.rs` (`publish_page` / `create_page` / `update_page`) is
  translated over an explicit store state standing for the remote Confluence
  space (search-by-title returning id and version, create, update-with-version).
-/

inductive Json where
  | null
  | bool (b : Bool)
  | num (n : Int)
  | str (s : String)
  | arr (elems : List Json)
  | obj (members : List (String × Json))
deriving Inhabited

namespace Json

/-- `serde_json::Map::get`: JSON objects have unique keys, so first-match
lookup over the association list agrees with the map lookup. -/
def objGet (ms : List (String × Json)) (k : String) : Option Json :=
  (ms.find? (fun kv => kv.1 == k)).map (·.2)

/-- `serde_json::Map::contains_key`. -/
def containsKey (ms : List (String × Json)) (k : String) : Bool :=
  (objGet ms k).isSome

/-- `Value::as_object`. -/
def as_object : Json → Option (List (String × Json))
  | .obj ms => some ms
  | _ => none

/-- `Value::as_array`. -/
def as_array : Json → Option (List Json)
  | .arr es => some es
  | _ => none

/-- `Value::as_str`. -/
def as_str : Json → Option String
  | .str s => some s
  | _ => none

/-- `Value::as_bool`. -/
def as_bool : Json → Option Bool
  | .bool b => some b
  | _ => none

/-- `Value::is_null`. -/
def is_null : Json → Bool
  | .null => true
  | _ => false

/-- `Value::is_array`. -/
def is_array : Json → Bool
  | .arr _ => true
  | _ => false

/-- `Value::get` on an object (returns `none` on non-objects, as in serde). -/
def get (v : Json) (k : String) : Option Json :=
  (v.as_object).bind (fun ms => objGet ms k)

mutual
/-- `Value::to_string()`: compact JSON serialization (used by `format_value`
for arrays/objects and by `extract_item_properties` for non-object items).
String escaping is omitted: the inputs the claims evaluate it on contain no
characters that JSON escapes. -/
def serialize : Json → String
  | .null => "null"
  | .bool b => if b then "true" else "false"
  | .num n => toString n
  | .str s => "\"" ++ s ++ "\""
  | .arr es => "[" ++ serializeArr es ++ "]"
  | .obj ms => "\x7b" ++ serializeObj ms ++ "\x7d"
def serializeArr : List Json → String
  | [] => ""
  | [e] => serialize e
  | e :: es => serialize e ++ "," ++ serializeArr es
def serializeObj : List (String × Json) → String
  | [] => ""
  | [(k, v)] => "\"" ++ k ++ "\":" ++ serialize v
  | (k, v) :: ms => "\"" ++ k ++ "\":" ++ serialize v ++ "," ++ serializeObj ms
end

end Json

open Json

/-! ## src/diff.rs: data model -/

/-- A single field-level change (diff.rs `FieldChange`). -/
structure FieldChange where
  field_path : String
  old : String
  new : String
deriving DecidableEq, Inhabited

/-- A nested sub-diff within a changed item's field (diff.rs `NestedFieldDiff`). -/
structure NestedFieldDiff where
  field_path : String
  added : List String
  removed : List String
deriving DecidableEq, Inhabited

/-- An item that was changed (diff.rs `ChangedItem`). -/
structure ChangedItem where
  code : String
  changes : List FieldChange
  nested_diffs : List NestedFieldDiff
deriving DecidableEq, Inhabited

/-- A diff for a single category (diff.rs `CategoryDiff`). -/
structure CategoryDiff where
  added : List Json
  removed : List Json
  changed : List ChangedItem

/-- diff.rs `DiffReport`: a `HashMap<String, CategoryDiff>`, embedded as an
association list; its iteration order is never meaningful (the renderer
re-sorts), so the list order is a harmless representation choice. -/
def DiffReport := List (String × CategoryDiff)

/-! ## src/diff.rs: functions -/

/-- diff.rs `format_value`: human-readable display string of a JSON value. -/
def format_value : Json → String
  | .str s => s
  | .bool b => if b then "true" else "false"
  | .num n => toString n
  | .null => "null"
  | other => serialize other

/-- The `added` display strings collected by `flatten_changes` for a
nested sub-diff node. -/
def nestedAdded (ms : List (String × Json)) : List String :=
  (((objGet ms "added").bind Json.as_array).map (fun arr => arr.map format_value)).getD []

/-- The `removed` display strings collected by `flatten_changes` for a
nested sub-diff node. -/
def nestedRemoved (ms : List (String × Json)) : List String :=
  (((objGet ms "removed").bind Json.as_array).map (fun arr => arr.map format_value)).getD []

mutual
/-- diff.rs `flatten_changes`: recursively flatten a change node, returning
the `FieldChange`s and `NestedFieldDiff`s it appends (in order) to the two
output vectors. -/
def flatten_changes (pre : String) (v : Json) :
    List FieldChange × List NestedFieldDiff :=
  match v with
  | .obj ms =>
    -- Leaf rule: has both "old" and "new" keys
    if containsKey ms "old" && containsKey ms "new" then
      ([⟨pre, format_value ((objGet ms "old").getD .null),
             format_value ((objGet ms "new").getD .null)⟩], [])
    else
      -- Nested sub-diff rule: "added" and/or "removed" keys holding arrays
      let has_added := (objGet ms "added").any Json.is_array
      let has_removed := (objGet ms "removed").any Json.is_array
      if has_added || has_removed then
        ([], [⟨pre, nestedAdded ms, nestedRemoved ms⟩])
      else
        -- Otherwise recurse into sub-keys
        flattenMembers pre ms
  | _ => ([], [])
/-- The recursion of `flatten_changes` over an object's members: each key is
appended to the path with a `.` separator. -/
def flattenMembers (pre : String) (ms : List (String × Json)) :
    List FieldChange × List NestedFieldDiff :=
  match ms with
  | [] => ([], [])
  | (k, sub) :: rest =>
    let r := flatten_changes (pre ++ "." ++ k) sub
    let r2 := flattenMembers pre rest
    (r.1 ++ r2.1, r.2 ++ r2.2)
end

/-- The loop of `parse_changed_item` over the fields of the "changes" object:
`flatten_changes` is seeded with the bare field name as path. -/
def flattenTop (ms : List (String × Json)) :
    List FieldChange × List NestedFieldDiff :=
  match ms with
  | [] => ([], [])
  | (k, sub) :: rest =>
    let r := flatten_changes k sub
    let r2 := flattenTop rest
    (r.1 ++ r2.1, r.2 ++ r2.2)

/-- diff.rs `parse_changed_item`: requires a string "code" and an object
"changes"; `none` otherwise. -/
def parse_changed_item (value : Json) : Option ChangedItem :=
  match value.as_object with
  | none => none
  | some ms =>
    match (objGet ms "code").bind Json.as_str with
    | none => none
    | some code =>
      match (objGet ms "changes").bind Json.as_object with
      | none => none
      | some changes_obj =>
        let r := flattenTop changes_obj
        some ⟨code, r.1, r.2⟩

/-- One category of `parse_diff_data`: optional "added"/"removed"/"changed"
arrays (default empty when absent or not arrays), malformed changed entries
dropped by `filterMap`. -/
def parseCategory (cat : List (String × Json)) : CategoryDiff :=
  let added := ((objGet cat "added").bind Json.as_array).getD []
  let removed := ((objGet cat "removed").bind Json.as_array).getD []
  let changed_raw := ((objGet cat "changed").bind Json.as_array).getD []
  ⟨added, removed, changed_raw.filterMap parse_changed_item⟩

/-- The loop of `parse_diff_data` over the root object's entries; fails at the
first category value that is not an object. -/
def parseCategories : List (String × Json) → Except String DiffReport
  | [] => .ok []
  | (category_name, category_value) :: rest =>
    match category_value.as_object with
    | none => .error ("Category " ++ category_name ++ " must be an object")
    | some cat =>
      (parseCategories rest).map (fun r => (category_name, parseCategory cat) :: r)

/-- diff.rs `parse_diff_data`. -/
def parse_diff_data (root : Json) : Except String DiffReport :=
  match root.as_object with
  | none => .error "Diff data root must be an object"
  | some ms => parseCategories ms

/-- The noise skip-list of `extract_item_properties`. -/
def skip_fields : List String :=
  ["code", "type", "group", "labels", "group_labels", "attributes",
   "decimal_places", "default_value", "display_time", "is_read_only",
   "max_characters", "max_file_size", "max_items_count",
   "minimum_input_length", "number_max", "number_min",
   "reference_data_name", "validation_rule"]

/-- The priority-fields loop of `extract_item_properties`. -/
def priorityProps (ms : List (String × Json)) : List (String × String) :=
  ["code", "type", "group"].filterMap (fun f =>
    match objGet ms f with
    | some v => if v.is_null then none else some (f, format_value v)
    | none => none)

/-- The labels-flattening loop of `extract_item_properties`. -/
def labelProps (ms : List (String × Json)) : List (String × String) :=
  (((objGet ms "labels").bind Json.as_object).getD []).map
    (fun kv => ("label (" ++ kv.1 ++ ")", format_value kv.2))

/-- The remaining-fields loop of `extract_item_properties`: skip the noise
list, nulls, `false`, empty arrays and empty objects. -/
def otherProps (ms : List (String × Json)) : List (String × String) :=
  ms.filterMap (fun kv =>
    if skip_fields.contains kv.1 then none
    else if kv.2.is_null then none
    else if kv.2.as_bool == some false then none
    else if (kv.2.as_array).any List.isEmpty then none
    else if (kv.2.as_object).any List.isEmpty then none
    else some (kv.1, format_value kv.2))

/-- diff.rs `extract_item_properties`. -/
def extract_item_properties (item : Json) : List (String × String) :=
  match item.as_object with
  | none => [("value", serialize item)]
  | some ms => priorityProps ms ++ labelProps ms ++ otherProps ms

/-! ## src/renderer.rs: shared formatting helpers -/

/-- renderer.rs `escape_html`: sequential replacement, `&` first. -/
def escape_html (s : String) : String :=
  (((s.replace "&" "&amp;").replace "<" "&lt;").replace ">" "&gt;").replace "\"" "&quot;"

/-- renderer.rs `capitalize`. Rust uppercases the first char with full Unicode
rules; `Char.toUpper` is the ASCII fragment, which coincides on every input a
claim evaluates. -/
def capitalize (s : String) : String :=
  match s.data with
  | [] => ""
  | c :: rest => c.toUpper.toString ++ String.mk rest

/-- renderer.rs `status_badge` (Confluence status macro with label and count). -/
def status_badge (label : String) (count : Nat) (color : String) : String :=
  let tc := if count == 0 then (label ++ ": 0", "Grey") else (label ++ ": " ++ toString count, color)
  "<ac:structured-macro ac:name=\"status\"><ac:parameter ac:name=\"title\">" ++
    escape_html tc.1 ++ "</ac:parameter><ac:parameter ac:name=\"colour\">" ++
    tc.2 ++ "</ac:parameter></ac:structured-macro>"

/-- renderer.rs `status_lozenge` (count-only status macro). -/
def status_lozenge (count : Nat) (color : String) : String :=
  "<ac:structured-macro ac:name=\"status\"><ac:parameter ac:name=\"title\">" ++
    toString count ++ "</ac:parameter><ac:parameter ac:name=\"colour\">" ++
    color ++ "</ac:parameter></ac:structured-macro>"

/-- renderer.rs `info_panel`. -/
def info_panel (body_html : String) : String :=
  "<ac:structured-macro ac:name=\"info\"><ac:rich-text-body><p>" ++ body_html ++
    "</p></ac:rich-text-body></ac:structured-macro>"

/-- Byte-lexicographic strict comparison on characters lists; UTF-8 byte order
agrees with code-point order, so this is Rust's `Ord` for `str`. -/
def lexLt : List Char → List Char → Bool
  | [], [] => false
  | [], _ :: _ => true
  | _ :: _, [] => false
  | a :: as, b :: bs => if a < b then true else if b < a then false else lexLt as bs

/-- Rust `str::to_lowercase` (ASCII fragment, per-character). -/
def toLowerStr (s : String) : String := ⟨s.data.map Char.toLower⟩

/-- Rust `str::to_uppercase` (ASCII fragment, per-character). -/
def toUpperStr (s : String) : String := ⟨s.data.map Char.toUpper⟩

/-- The comparison underlying `sort_by_key(|(name, _)| name.to_lowercase())`:
`a` may precede `b` iff `lowercase a ≤ lowercase b` in lexicographic order. -/
def lowerLe (a b : String) : Bool := !(lexLt (toLowerStr b).data (toLowerStr a).data)

/-- Plain lexicographic `≤` on strings (Rust `String: Ord`), for `Vec::sort`. -/
def strLe (a b : String) : Bool := !(lexLt b.data a.data)

/-- renderer.rs sorting of category entries: `Vec::sort_by_key` is a stable
sort by the lowercased name; a stable insertion sort by the same key has
identical output. -/
def sortCategories (report : DiffReport) : DiffReport :=
  List.insertionSort (fun a b => lowerLe a.1 b.1 = true) report

/-- renderer.rs `render_diff_header`. -/
def render_diff_header (before after : String) : String :=
  info_panel ("<strong>Before:</strong> " ++ escape_html before ++
    "<br/><strong>After:</strong> " ++ escape_html after) ++ "<hr/>"

/-- renderer.rs `render_summary_table`: one row per category, sorted
case-insensitively by name. -/
def render_summary_table (report : DiffReport) : String :=
  "<h2>Summary</h2>" ++ "<table data-layout=\"full-width\"><tbody>" ++
  "<tr><th>Category</th><th>Added</th><th>Removed</th><th>Changed</th></tr>" ++
  String.join ((sortCategories report).map (fun nd =>
    "<tr><td><strong>" ++ capitalize (escape_html nd.1) ++ "</strong></td><td>" ++
    status_badge "Added" nd.2.added.length "Green" ++ "</td><td>" ++
    status_badge "Removed" nd.2.removed.length "Red" ++ "</td><td>" ++
    status_badge "Changed" nd.2.changed.length "Yellow" ++ "</td></tr>")) ++
  "</tbody></table>"

/-- The column list of renderer.rs `render_item_table`: union of the property
keys across all items, in first-seen order. -/
def itemTableColumns (all_props : List (List (String × String))) : List String :=
  all_props.foldl (fun cols props =>
    props.foldl (fun cols kv => if cols.contains kv.1 then cols else cols ++ [kv.1]) cols) []

/-- The `prop_map` lookup of `render_item_table`: the Rust code collects the
pairs into a `HashMap`, so a duplicated label keeps the last value. -/
def propLookup (props : List (String × String)) (col : String) : Option String :=
  (props.reverse.find? (fun kv => kv.1 == col)).map (·.2)

/-- One table cell value of `render_item_table`: the property value, or the
em-dash placeholder when the item has no value for that column. -/
def itemCell (props : List (String × String)) (col : String) : String :=
  (propLookup props col).getD "—"

/-- renderer.rs `render_item_table`. -/
def render_item_table (items : List Json) : String :=
  let all_props := items.map extract_item_properties
  let columns := itemTableColumns all_props
  "<table data-layout=\"full-width\"><tbody>" ++
  "<tr>" ++ String.join (columns.map (fun col =>
    "<th>" ++ capitalize (escape_html col) ++ "</th>")) ++ "</tr>" ++
  String.join (all_props.map (fun props =>
    "<tr>" ++ String.join (columns.map (fun col =>
      let val := itemCell props col
      if col == "code" then "<td><code>" ++ escape_html val ++ "</code></td>"
      else "<td>" ++ escape_html val ++ "</td>")) ++ "</tr>")) ++
  "</tbody></table>"

/-- renderer.rs `render_added_section`. -/
def render_added_section (items : List Json) : String :=
  "<h3>" ++ status_lozenge items.length "Green" ++ " Added</h3>" ++
  (if items.isEmpty then "<p><em>No additions.</em></p>" else render_item_table items)

/-- renderer.rs `render_removed_section`. -/
def render_removed_section (items : List Json) : String :=
  "<h3>" ++ status_lozenge items.length "Red" ++ " Removed</h3>" ++
  (if items.isEmpty then "<p><em>No removals.</em></p>" else render_item_table items)

/-- renderer.rs `render_changed_section`: one row per flat field change, then
rows for nested sub-diffs suffixed `.added` / `.removed`. -/
def render_changed_section (items : List ChangedItem) : String :=
  "<h3>" ++ status_lozenge items.length "Yellow" ++ " Changed</h3>" ++
  (if items.isEmpty then "<p><em>No changes.</em></p>"
   else
    "<table data-layout=\"full-width\"><tbody>" ++
    "<tr><th>Code</th><th>Field</th><th>Old Value</th><th>New Value</th></tr>" ++
    String.join (items.map (fun item =>
      String.join (item.changes.map (fun change =>
        "<tr><td><code>" ++ escape_html item.code ++ "</code></td><td><code>" ++
        escape_html change.field_path ++ "</code></td><td><span style=\"color: red;\">" ++
        escape_html change.old ++ "</span></td><td><span style=\"color: green;\">" ++
        escape_html change.new ++ "</span></td></tr>")) ++
      String.join (item.nested_diffs.map (fun nested =>
        (if nested.added.isEmpty then "" else
          "<tr><td><code>" ++ escape_html item.code ++ "</code></td><td><code>" ++
          escape_html nested.field_path ++ ".added</code></td><td></td>" ++
          "<td><span style=\"color: green;\">" ++
          String.intercalate ", " (nested.added.map escape_html) ++ "</span></td></tr>") ++
        (if nested.removed.isEmpty then "" else
          "<tr><td><code>" ++ escape_html item.code ++ "</code></td><td><code>" ++
          escape_html nested.field_path ++ ".removed</code></td>" ++
          "<td><span style=\"color: red;\">" ++
          String.intercalate ", " (nested.removed.map escape_html) ++
          "</span></td><td></td></tr>"))))) ++
    "</tbody></table>")

/-- renderer.rs `render_category`. -/
def render_category (name : String) (diff : CategoryDiff) : String :=
  "<h2>" ++ capitalize (escape_html name) ++ "</h2>" ++
  render_added_section diff.added ++ render_removed_section diff.removed ++
  render_changed_section diff.changed

/-- The category-section order of `render_diff_page` (names of the sorted
category entries). -/
def diffSectionOrder (report : DiffReport) : List String :=
  (sortCategories report).map Prod.fst

/-- The row order of `render_summary_table`. -/
def summaryRowOrder (report : DiffReport) : List String :=
  (sortCategories report).map Prod.fst

/-- renderer.rs `render_diff_page`: returns (title, body). -/
def render_diff_page (before_label after_label : Option String) (report : DiffReport) :
    String × String :=
  let before := before_label.getD "before"
  let after := after_label.getD "after"
  let title := "Diff: " ++ before ++ " → " ++ after
  let body := render_diff_header before after ++ render_summary_table report ++
    String.join ((sortCategories report).map (fun nd => render_category nd.1 nd.2))
  (title, body)

/-! ## src/renderer.rs: snapshot rendering (multi-page) -/

/-- renderer.rs `SnapshotChildPage`. -/
structure SnapshotChildPage where
  title : String
  body : String
deriving DecidableEq

/-- renderer.rs `SnapshotPageTree`. -/
structure SnapshotPageTree where
  root_title : String
  root_body : String
  children : List SnapshotChildPage
deriving DecidableEq

/-- renderer.rs `section_heading`. -/
def section_heading (label : String) (count : Nat) (color : String) : String :=
  "<h2>" ++ escape_html (toUpperStr label) ++ " " ++ status_lozenge count color ++ "</h2>"

/-- renderer.rs `check_icon`. -/
def check_icon (val : Bool) : String :=
  if val then "✅" else "❌"

/-- renderer.rs `get_code`. -/
def get_code (item : Json) : String :=
  ((item.get "code").bind Json.as_str).getD "unknown"

/-- renderer.rs `get_label`: first value of the "labels" sub-object. -/
def get_label (item : Json) : Option String :=
  (((item.get "labels").bind Json.as_object).bind List.head?).bind
    (fun kv => kv.2.as_str)

/-- renderer.rs `get_string_array`. -/
def get_string_array (item : Json) (field : String) : List String :=
  (((item.get field).bind Json.as_array).getD []).filterMap Json.as_str

/-- renderer.rs `render_labels_inline`. -/
def render_labels_inline (item : Json) : String :=
  match (item.get "labels").bind Json.as_object with
  | some labels =>
    String.intercalate ", " (labels.map (fun kv =>
      "<strong>" ++ escape_html kv.1 ++ "</strong>: " ++
      escape_html ((kv.2.as_str).getD "—")))
  | none => "—"

/-- renderer.rs `render_summary_cards`. -/
def render_summary_cards (channels families attributes categories attr_options : Nat) :
    String :=
  "<table data-layout=\"full-width\"><tbody><tr>" ++
  String.join (([("📡", channels, "Channels"), ("📚", families, "Families"),
    ("⚙️", attributes, "Attributes"), ("📂", categories, "Categories"),
    ("📋", attr_options, "Attr. Options")] : List (String × Nat × String)).map
    (fun card =>
      "<td><p>" ++ card.1 ++ "</p><p><strong style=\"font-size: 24px;\">" ++
      toString card.2.1 ++ "</strong></p><p><em>" ++ card.2.2 ++ "</em></p></td>")) ++
  "</tr></tbody></table>"

/-- renderer.rs `render_channels_section`. -/
def render_channels_section (channels : List Json) : String :=
  section_heading "Channels" channels.length "Green" ++
  (if channels.isEmpty then "<p><em>No channels.</em></p>"
   else
    "<table data-layout=\"full-width\"><tbody>" ++
    "<tr><th>Code</th><th>Label</th><th>Locales</th><th>Currencies</th><th>Category Tree</th></tr>" ++
    String.join (channels.map (fun ch =>
      "<tr><td><code>" ++ escape_html (get_code ch) ++ "</code></td><td>" ++
      escape_html ((get_label ch).getD "—") ++ "</td><td>" ++
      escape_html (String.intercalate ", " (get_string_array ch "locales")) ++ "</td><td>" ++
      escape_html (String.intercalate ", " (get_string_array ch "currencies")) ++ "</td><td>" ++
      escape_html (((ch.get "category_tree").bind Json.as_str).getD "—") ++
      "</td></tr>")) ++
    "</tbody></table>")

/-- renderer.rs `render_families_section`. -/
def render_families_section (families : List Json) : String :=
  section_heading "Families" families.length "Yellow" ++
  (if families.isEmpty then "<p><em>No families.</em></p>"
   else
    "<table data-layout=\"full-width\"><tbody>" ++
    "<tr><th>Code</th><th>Label</th><th>Attributes</th><th>Label Attr</th><th>Image Attr</th></tr>" ++
    String.join (families.map (fun fam =>
      "<tr><td><code>" ++ escape_html (get_code fam) ++ "</code></td><td>" ++
      escape_html ((get_label fam).getD "—") ++ "</td><td>" ++
      status_lozenge ((((fam.get "attributes").bind Json.as_array).map List.length).getD 0) "Blue" ++
      "</td><td><code>" ++
      escape_html (((fam.get "attribute_as_label").bind Json.as_str).getD "—") ++
      "</code></td><td><code>" ++
      escape_html (((fam.get "attribute_as_image").bind Json.as_str).getD "—") ++
      "</code></td></tr>")) ++
    "</tbody></table>")

/-- renderer.rs `render_attributes_section`. -/
def render_attributes_section (attributes : List Json) : String :=
  section_heading "Attributes" attributes.length "Purple" ++
  (if attributes.isEmpty then "<p><em>No attributes.</em></p>"
   else
    "<table data-layout=\"full-width\"><tbody>" ++
    "<tr><th>Code</th><th>Label</th><th>Type</th><th>Group</th><th>Scopable</th><th>Localizable</th></tr>" ++
    String.join (attributes.map (fun attr =>
      "<tr><td><code>" ++ escape_html (get_code attr) ++ "</code></td><td>" ++
      escape_html ((get_label attr).getD "—") ++ "</td><td><code>" ++
      escape_html (((attr.get "type").bind Json.as_str).getD "—") ++ "</code></td><td>" ++
      escape_html (((attr.get "group").bind Json.as_str).getD "—") ++ "</td><td>" ++
      check_icon (((attr.get "scopable").bind Json.as_bool).getD false) ++ "</td><td>" ++
      check_icon (((attr.get "localizable").bind Json.as_bool).getD false) ++
      "</td></tr>")) ++
    "</tbody></table>")

/-- renderer.rs `render_categories_section`. -/
def render_categories_section (categories : List Json) : String :=
  section_heading "Categories" categories.length "Blue" ++
  (if categories.isEmpty then "<p><em>No categories.</em></p>"
   else
    "<table data-layout=\"full-width\"><tbody>" ++
    "<tr><th>Code</th><th>Labels</th><th>Parent</th><th>Updated</th></tr>" ++
    String.join (categories.map (fun cat =>
      "<tr><td><code>" ++ escape_html (get_code cat) ++ "</code></td><td>" ++
      render_labels_inline cat ++ "</td><td>" ++
      escape_html (((cat.get "parent").bind Json.as_str).getD "—") ++ "</td><td>" ++
      escape_html (((cat.get "updated").bind Json.as_str).getD "—") ++
      "</td></tr>")) ++
    "</tbody></table>")

/-- renderer.rs `render_attribute_options_sections`: Rust sorts the attribute
codes with `Vec::sort` (byte-lexicographic). -/
def render_attribute_options_sections (options_value : Option Json) : String :=
  match options_value.bind Json.as_object with
  | none =>
    section_heading "Attribute Options" 0 "Grey" ++ "<p><em>No attribute options.</em></p>"
  | some o =>
    let total := ((o.filterMap (fun kv => kv.2.as_array)).map List.length).sum
    section_heading "Attribute Options" total "Yellow" ++
    String.join ((List.insertionSort (fun a b => strLe a b = true) (o.map Prod.fst)).map
      (fun attr_code =>
        match (objGet o attr_code).bind Json.as_array with
        | none => ""
        | some options =>
          "<h3>Attribute: <code>" ++ escape_html attr_code ++ "</code> " ++
          status_lozenge options.length "Grey" ++ "</h3>" ++
          (if options.isEmpty then "<p><em>No options.</em></p>"
           else
            "<table data-layout=\"full-width\"><tbody>" ++
            "<tr><th>Code</th><th>Label</th><th>Sort Order</th></tr>" ++
            String.join (options.map (fun opt =>
              "<tr><td><code>" ++ escape_html (get_code opt) ++ "</code></td><td>" ++
              escape_html ((get_label opt).getD "—") ++ "</td><td>" ++
              escape_html ((opt.get "sort_order").elim "—" (fun v =>
                match v with
                | Json.num n => toString n
                | _ => serialize v)) ++
              "</td></tr>")) ++
            "</tbody></table>")))

/-- The attribute lookup map of `render_family_detail_page`: collected into a
`HashMap`, so for duplicate codes the last attribute wins. -/
def attrMapGet (all_attributes : List Json) (c : String) : Option Json :=
  ((all_attributes.filterMap (fun a =>
    ((a.get "code").bind Json.as_str).map (fun s => (s, a)))).reverse.find?
    (fun kv => kv.1 == c)).map (·.2)

/-- renderer.rs `render_family_detail_page`. -/
def render_family_detail_page (family : Json) (all_attributes : List Json) : String :=
  let code := get_code family
  let label := (get_label family).getD code
  let parent := ((family.get "parent").bind Json.as_str).getD "— No parent"
  let label_attr := ((family.get "attribute_as_label").bind Json.as_str).getD "—"
  let image_attr := ((family.get "attribute_as_image").bind Json.as_str).getD "—"
  let family_attrs := (family.get "attributes").bind Json.as_array
  let total_attrs := (family_attrs.map List.length).getD 0
  let requirements := (family.get "attribute_requirements").bind Json.as_object
  "<h1>" ++ escape_html label ++ "</h1>" ++
  "<p><code>" ++ escape_html code ++
  "</code> — Family configuration and associated attributes from the Akeneo PIM snapshot.</p>" ++
  "<hr/>" ++
  "<h2>Family Configuration</h2>" ++
  "<table data-layout=\"full-width\"><tbody><tr>" ++
  "<td><strong>Family Code</strong><br/><code>" ++ escape_html code ++ "</code></td>" ++
  "<td><strong>Label</strong><br/>" ++ escape_html label ++ "</td>" ++
  "<td><strong>Parent</strong><br/>" ++ escape_html parent ++ "</td>" ++
  "</tr><tr>" ++
  "<td><strong>Attribute as Label</strong><br/><code>" ++ escape_html label_attr ++ "</code></td>" ++
  "<td><strong>Attribute as Image</strong><br/><code>" ++ escape_html image_attr ++ "</code></td>" ++
  "<td><strong>Total Attributes</strong><br/><strong style=\"font-size: 24px;\">" ++
  toString total_attrs ++ "</strong></td>" ++
  "</tr></tbody></table>" ++
  "<h2>Attribute Requirements</h2>" ++
  (match requirements with
   | some reqs =>
     if reqs.isEmpty then "<p><em>No attribute requirements defined.</em></p>"
     else
      "<table data-layout=\"full-width\"><tbody>" ++
      "<tr><th>Channel</th><th>Required Attributes</th></tr>" ++
      String.join ((List.insertionSort (fun a b => lowerLe a.1 b.1 = true) reqs).map
        (fun chav =>
          "<tr><td><strong>" ++ escape_html chav.1 ++ "</strong></td><td>" ++
          ((chav.2.as_array).elim "—" (fun arr =>
            String.intercalate ", " ((arr.filterMap Json.as_str).map (fun s =>
              "<code>" ++ escape_html s ++ "</code>")))) ++
          "</td></tr>")) ++
      "</tbody></table>"
   | none => "<p><em>No attribute requirements defined.</em></p>") ++
  "<h2>Family Attributes " ++ status_lozenge total_attrs "Purple" ++ "</h2>" ++
  (match family_attrs with
   | some attrs =>
     if attrs.isEmpty then "<p><em>No attributes in this family.</em></p>"
     else
      let required_map := (requirements.getD []).filterMap (fun chv =>
        (chv.2.as_array).map (fun a => (chv.1, a.filterMap Json.as_str)))
      "<table data-layout=\"full-width\"><tbody>" ++
      "<tr><th>Attribute Code</th><th>Type</th><th>Group</th><th>Scopable</th><th>Localizable</th><th>Required</th></tr>" ++
      String.join (attrs.map (fun attr_val =>
        let attr_code := (attr_val.as_str).getD "unknown"
        let meta :=
          match attrMapGet all_attributes attr_code with
          | some attr_data =>
            ((((attr_data.get "type").bind Json.as_str).getD "—",
              ((attr_data.get "group").bind Json.as_str).getD "—"),
             (((attr_data.get "scopable").bind Json.as_bool).getD false,
              ((attr_data.get "localizable").bind Json.as_bool).getD false))
          | none => (("—", "—"), (false, false))
        let required_channels := (required_map.filter
          (fun chreq => chreq.2.contains attr_code)).map Prod.fst
        let required_display :=
          if required_channels.isEmpty then "—"
          else String.intercalate ", " (required_channels.map escape_html)
        "<tr><td><code>" ++ escape_html attr_code ++ "</code></td><td><code>" ++
        escape_html meta.1.1 ++ "</code></td><td>" ++ escape_html meta.1.2 ++
        "</td><td>" ++ check_icon meta.2.1 ++ "</td><td>" ++ check_icon meta.2.2 ++
        "</td><td>" ++ required_display ++ "</td></tr>")) ++
      "</tbody></table>"
   | none => "<p><em>No attributes in this family.</em></p>")

/-- renderer.rs `render_snapshot_pages`: root page plus one child page per
family; a non-object payload degrades to a placeholder body. The `label`
argument is bound (as in the source) but never used. -/
def render_snapshot_pages (label : Option String) (data : Json) : SnapshotPageTree :=
  let _display_label := label.getD "Unnamed snapshot"
  let root_title := "Current model"
  match data.as_object with
  | none =>
    { root_title := root_title,
      root_body := "<p><em>No data available.</em></p>",
      children := [] }
  | some ms =>
    let channels := ((objGet ms "channels").bind Json.as_array).getD []
    let families := ((objGet ms "families").bind Json.as_array).getD []
    let attributes := ((objGet ms "attributes").bind Json.as_array).getD []
    let categories := ((objGet ms "categories").bind Json.as_array).getD []
    let attribute_options := objGet ms "attribute_options"
    let attr_options_count :=
      (((attribute_options.bind Json.as_object).map (fun o =>
        ((o.filterMap (fun kv => kv.2.as_array)).map List.length).sum)).getD 0)
    let body :=
      "<h1>Akeneo Model Snapshot</h1>" ++
      "<p>Overview of the PIM data model configuration — channels, families, attributes, categories, and attribute options.</p>" ++
      "<hr/>" ++
      render_summary_cards channels.length families.length attributes.length
        categories.length attr_options_count ++
      render_channels_section channels ++
      render_families_section families ++
      render_attributes_section attributes ++
      render_categories_section categories ++
      render_attribute_options_sections attribute_options
    let children := families.map (fun family =>
      let code := get_code family
      let flabel := (get_label family).getD code
      SnapshotChildPage.mk ("Family: " ++ flabel ++ " (" ++ code ++ ")")
        (render_family_detail_page family attributes))
    { root_title := root_title, root_body := body, children := children }

/-! ## src/confluence.rs: idempotent publish over the remote store

The client logic (`find_page` / `create_page` / `update_page` /
`publish_page`) is translated from confluence.rs. The remote Confluence space
itself is an external collaborator; it is modelled as an explicit state (a
list of pages plus a fresh-id counter) whose three operations behave as the
REST API does: search-by-title returns the id and version of the page with
that exact title in the space, create stores a new page at version 1 with a
fresh id, and update-with-version stores the body under the requested version
number, keeping the page id. -/

/-- One page held by the remote store. -/
structure RemotePage where
  id : Nat
  title : String
  version : Nat
  body : String
deriving DecidableEq

/-- The remote store state: its pages and the next fresh page id. -/
structure Store where
  pages : List RemotePage
  nextId : Nat
deriving DecidableEq

/-- The configuration fields of `ConfluenceConfig` that decide publish
behaviour (the base url / credentials only shape URLs and transport). -/
structure ConfluenceConfig where
  parent_page : String
deriving DecidableEq

/-- confluence.rs `find_page`: search for an existing page by title, returning
its id and current version if found. -/
def find_page (s : Store) (title : String) : Option (Nat × Nat) :=
  (s.pages.find? (fun p => p.title == title)).map (fun p => (p.id, p.version))

/-- confluence.rs `create_page`: resolve the configured parent page first when
one is set (failing if it cannot be found), then create the page; the store
assigns a fresh id and version 1. Returns the new store and the page id. -/
def create_page (cfg : ConfluenceConfig) (s : Store) (title body_wiki : String) :
    Except String (Store × Nat) :=
  if cfg.parent_page ≠ "" ∧ (find_page s cfg.parent_page).isNone then
    .error ("Parent page " ++ cfg.parent_page ++ " not found")
  else
    .ok (⟨s.pages ++ [⟨s.nextId, title, 1, body_wiki⟩], s.nextId + 1⟩, s.nextId)

/-- confluence.rs `update_page`: put the new body under version
`current_version + 1` on the page with the given id; the id is unchanged. -/
def update_page (s : Store) (page_id : Nat) (title body_wiki : String)
    (current_version : Nat) : Store × Nat :=
  (⟨s.pages.map (fun p =>
      if p.id == page_id then ⟨p.id, title, current_version + 1, body_wiki⟩ else p),
    s.nextId⟩, page_id)

/-- confluence.rs `publish_page`: search, then update the found page or create
a new one. -/
def publish_page (cfg : ConfluenceConfig) (s : Store) (title body_wiki : String) :
    Except String (Store × Nat) :=
  match find_page s title with
  | some pv => .ok (update_page s pv.1 title body_wiki pv.2)
  | none => create_page cfg s title body_wiki

/-! ## Auxiliary definitions used by the statements and proofs -/

/-- Path accumulation of `flatten_changes`: starting from `pre`, append each
key with a `.` separator. -/
def joinPath (pre : String) (ks : List String) : String :=
  ks.foldl (fun p k => p ++ "." ++ k) pre

/-- The full dotted path of a non-empty key sequence, as produced by
`parse_changed_item`: the first key is the seed (no leading separator). -/
def pathOfSegs : List String → String
  | [] => ""
  | k :: ks => joinPath k ks

/-- `"." ++ k` for each key, concatenated: the suffix `joinPath` appends. -/
def encStr : List String → String
  | [] => ""
  | k :: ks => "." ++ k ++ encStr ks

/-- No string occurs twice (key uniqueness of a JSON object). -/
def distinctKeys : List String → Bool
  | [] => true
  | k :: ks => !(ks.contains k) && distinctKeys ks

/-- A key that contains no `.` separator character. -/
def dotFreeKey (k : String) : Bool := !(k.data.contains '.')

mutual
/-- Keys of a change tree are unique and dot-free at every object node. -/
def wfChangeTree : Json → Bool
  | .obj ms =>
    distinctKeys (ms.map Prod.fst) && (ms.map Prod.fst).all dotFreeKey &&
      wfChangeMembers ms
  | _ => true
/-- `wfChangeTree` over the values of an object. -/
def wfChangeMembers : List (String × Json) → Bool
  | [] => true
  | kv :: rest => wfChangeTree kv.2 && wfChangeMembers rest
end

mutual
/-- The key sequences (relative paths) at which `flatten_changes` emits a
`FieldChange` (first component) or a `NestedFieldDiff` (second component). -/
def segPaths : Json → List (List String) × List (List String)
  | .obj ms =>
    if containsKey ms "old" && containsKey ms "new" then ([[]], [])
    else
      if (objGet ms "added").any Json.is_array || (objGet ms "removed").any Json.is_array then
        ([], [[]])
      else segMembers ms
  | _ => ([], [])
/-- `segPaths` over the members of an object, each key prepended. -/
def segMembers : List (String × Json) → List (List String) × List (List String)
  | [] => ([], [])
  | (k, v) :: rest =>
    let r := segPaths v
    let r2 := segMembers rest
    (r.1.map (k :: ·) ++ r2.1, r.2.map (k :: ·) ++ r2.2)
end

/-- The keys of an item's "labels" sub-object. -/
def labelKeys (ms : List (String × Json)) : List String :=
  (((objGet ms "labels").bind Json.as_object).getD []).map Prod.fst

/-- Number of pages in the store with exactly the given title. -/
def countTitled (s : Store) (t : String) : Nat :=
  (s.pages.filter (fun p => p.title == t)).length

/-! ## Claim theorems -/

/-- C1: for every JSON node passed to `flatten_changes` with some path, if
the node is an object with both an "old" and a "new" key it is classified as
a leaf change — exactly one `FieldChange` with the current path and the two
display strings, and no `NestedFieldDiff` — even if the node also carries
"added"/"removed" keys; and when the leaf rule does not match but an
"added"/"removed" array is present, exactly one `NestedFieldDiff` is emitted
and the node is not recursed into: leaf beats nested-diff beats recursion. -/
theorem C1_rule_precedence (pre : String) (ms : List (String × Json)) :
    (containsKey ms "old" = true → containsKey ms "new" = true →
      flatten_changes pre (.obj ms) =
        ([⟨pre, format_value ((objGet ms "old").getD .null),
              format_value ((objGet ms "new").getD .null)⟩], [])) ∧
    (¬(containsKey ms "old" = true ∧ containsKey ms "new" = true) →
      ((objGet ms "added").any Json.is_array ||
        (objGet ms "removed").any Json.is_array) = true →
      flatten_changes pre (.obj ms) =
        ([], [⟨pre, nestedAdded ms, nestedRemoved ms⟩])) := by
  constructor
  · intro h1 h2
    simp [flatten_changes, h1, h2]
  · intro h1 h2
    have hc : (containsKey ms "old" && containsKey ms "new") = false := by
      rw [Bool.and_eq_false_iff]
      by_contra hcon
      push_neg at hcon
      exact h1 ⟨eq_true_of_ne_false hcon.1, eq_true_of_ne_false hcon.2⟩
    simp [flatten_changes, hc, h2]

/-- Witness for C1: a node with "old"/"new"/"added" is a leaf, and a node
with only an "added" array is a nested sub-diff. -/
theorem C1_rule_precedence_witness :
    flatten_changes "p" (.obj [("old", .str "x"), ("new", .str "y"),
        ("added", .arr [.str "z"])]) = ([⟨"p", "x", "y"⟩], []) ∧
    flatten_changes "q" (.obj [("added", .arr [.str "z"])]) =
      ([], [⟨"q", ["z"], []⟩]) :=
  ⟨(C1_rule_precedence "p" _).1 rfl rfl,
   (C1_rule_precedence "q" _).2 (by decide) rfl⟩

/-- C7: flattening the changes object
`{"labels": {"en_US": {"old": "A", "new": "B"}}}` (through
`parse_changed_item`) yields exactly one `FieldChange` with path
"labels.en_US" (segments joined with ".", no leading or trailing separator)
and no `NestedFieldDiff`. -/
theorem C7_path_composition :
    parse_changed_item (.obj [("code", .str "c"),
      ("changes", .obj [("labels",
        .obj [("en_US", .obj [("old", .str "A"), ("new", .str "B")])])])]) =
      some ⟨"c", [⟨"labels.en_US", "A", "B"⟩], []⟩ := rfl

/-- C10: the snapshot page tree does not depend on the snapshot label, and
the root title is the constant "Current model". -/
theorem C10_label_independent (l1 l2 : Option String) (d : Json) :
    render_snapshot_pages l1 d = render_snapshot_pages l2 d ∧
    (render_snapshot_pages l1 d).root_title = "Current model" := by
  constructor
  · cases d <;> rfl
  · cases d <;> rfl

/-- C9 counterexample: a snapshot payload with one top-level category
("attributes") renders zero child pages, so the number of children is not
the number of categories. -/
theorem C9_children_counterexample :
    (render_snapshot_pages none
        (Json.obj [("attributes", Json.arr [Json.obj [("code", Json.str "a")]])])).children.length ≠
      ([("attributes", Json.arr [Json.obj [("code", Json.str "a")]])] :
        List (String × Json)).length := by decide

/-- C9 amended: the rendered page tree contains exactly one child page per
entry of the payload's "families" array (not per top-level category), and a
payload whose root is not an object renders the single placeholder root body
with no children. -/
theorem C9_children_per_family (label : Option String) (ms : List (String × Json))
    (d : Json) :
    (d = Json.obj ms →
      (render_snapshot_pages label d).children.length =
        (((objGet ms "families").bind Json.as_array).getD []).length) ∧
    (d.as_object = none →
      render_snapshot_pages label d =
        ⟨"Current model", "<p><em>No data available.</em></p>", []⟩) := by
  constructor
  · rintro rfl
    simp [render_snapshot_pages, Json.as_object]
  · intro h
    cases d <;> simp [Json.as_object] at h <;> rfl

/-- Witness for C9 amended: a payload with two families yields two children;
a string payload yields the placeholder tree. -/
theorem C9_children_per_family_witness :
    (render_snapshot_pages none
        (Json.obj [("families", Json.arr [Json.obj [], Json.obj []])])).children.length =
      (((objGet [("families", Json.arr [Json.obj [], Json.obj []])] "families").bind
        Json.as_array).getD []).length ∧
    render_snapshot_pages none (Json.str "oops") =
      ⟨"Current model", "<p><em>No data available.</em></p>", []⟩ :=
  ⟨(C9_children_per_family none [("families", Json.arr [Json.obj [], Json.obj []])]
      (Json.obj [("families", Json.arr [Json.obj [], Json.obj []])])).1 rfl,
   (C9_children_per_family none [] (Json.str "oops")).2 rfl⟩

/-- The store after `update_page` on a store whose pages all have fresh ids
below `nextId` plus one page carrying `nextId`: only that page is rewritten. -/
theorem update_page_fresh (s : Store) (t b1 b2 : String)
    (hfresh : ∀ p ∈ s.pages, p.id < s.nextId) :
    update_page ⟨s.pages ++ [⟨s.nextId, t, 1, b1⟩], s.nextId + 1⟩ s.nextId t b2 1 =
      (⟨s.pages ++ [⟨s.nextId, t, 2, b2⟩], s.nextId + 1⟩, s.nextId) := by
  have hp : s.pages.map
      (fun p => if p.id = s.nextId then
        (⟨p.id, t, 2, b2⟩ : RemotePage) else p) = s.pages := by
    refine (List.map_congr_left ?_).trans (List.map_id s.pages)
    intro p hp
    simp [Nat.ne_of_lt (hfresh p hp)]
  simp [update_page, List.map_append, hp]

/-- C2: publishing is an idempotent upsert. (1) When a page with the title
exists, it is updated in place: same id returned, ids unchanged, and that
page's version becomes the previous version + 1. (2) Publishing the same
fresh title twice leaves exactly one remote page with that title, whose
version incremented by exactly 1 on the second call. (3) Publishing two
distinct fresh titles yields two distinct page ids. -/
theorem C2_idempotent_upsert :
    (∀ (cfg : ConfluenceConfig) (s : Store) (t b : String) (pid ver : Nat),
      find_page s t = some (pid, ver) →
      publish_page cfg s t b = .ok (update_page s pid t b ver) ∧
      (update_page s pid t b ver).2 = pid ∧
      (update_page s pid t b ver).1.pages.map RemotePage.id =
        s.pages.map RemotePage.id ∧
      ∀ p ∈ (update_page s pid t b ver).1.pages, p.id = pid → p.version = ver + 1) ∧
    (∀ (cfg : ConfluenceConfig) (s : Store) (t b1 b2 : String) (s1 s2 : Store)
        (i1 i2 : Nat),
      (∀ p ∈ s.pages, p.title ≠ t) →
      (∀ p ∈ s.pages, p.id < s.nextId) →
      publish_page cfg s t b1 = .ok (s1, i1) →
      publish_page cfg s1 t b2 = .ok (s2, i2) →
      i2 = i1 ∧ countTitled s2 t = 1 ∧
      find_page s1 t = some (i1, 1) ∧ find_page s2 t = some (i1, 2)) ∧
    (∀ (cfg : ConfluenceConfig) (s : Store) (t1 t2 b1 b2 : String) (s1 s2 : Store)
        (i1 i2 : Nat),
      t1 ≠ t2 →
      (∀ p ∈ s.pages, p.title ≠ t1) → (∀ p ∈ s.pages, p.title ≠ t2) →
      publish_page cfg s t1 b1 = .ok (s1, i1) →
      publish_page cfg s1 t2 b2 = .ok (s2, i2) →
      i1 ≠ i2) := by
  refine ⟨?_, ?_, ?_⟩
  · intro cfg s t b pid ver hfind
    refine ⟨by simp [publish_page, hfind], rfl, ?_, ?_⟩
    · simp only [update_page, List.map_map]
      conv_rhs => rw [← List.map_id (s.pages.map RemotePage.id)]
      rw [List.map_map]
      apply List.map_congr_left
      intro p _
      by_cases h : p.id = pid <;> simp [Function.comp, h]
    · intro p hp hpid
      simp only [update_page] at hp
      rcases List.mem_map.mp hp with ⟨q, _, rfl⟩
      by_cases h : q.id = pid <;> simp_all
  · intro cfg s t b1 b2 s1 s2 i1 i2 htitle hfresh h1 h2
    have hnone : List.find? (fun p => p.title == t) s.pages = none :=
      List.find?_eq_none.mpr (fun p hp => by simpa using htitle p hp)
    have hfilter : List.filter (fun p => p.title == t) s.pages = [] :=
      List.filter_eq_nil_iff.mpr (fun p hp => by simpa using htitle p hp)
    have hfind : find_page s t = none := by
      simp [find_page, hnone]
    simp only [publish_page, hfind, create_page] at h1
    by_cases hpar : cfg.parent_page ≠ "" ∧ (find_page s cfg.parent_page).isNone
    · simp [hpar] at h1
    · simp only [if_neg hpar, Except.ok.injEq, Prod.mk.injEq] at h1
      obtain ⟨rfl, rfl⟩ := h1
      have hfind1 : find_page ⟨s.pages ++ [⟨s.nextId, t, 1, b1⟩], s.nextId + 1⟩ t =
          some (s.nextId, 1) := by
        simp [find_page, List.find?_append, hnone]
      simp only [publish_page, hfind1, update_page_fresh s t b1 b2 hfresh,
        Except.ok.injEq, Prod.mk.injEq] at h2
      obtain ⟨rfl, rfl⟩ := h2
      refine ⟨rfl, ?_, hfind1, ?_⟩
      · simp [countTitled, List.filter_append, hfilter]
      · simp [find_page, List.find?_append, hnone]
  · intro cfg s t1 t2 b1 b2 s1 s2 i1 i2 hne ht1 ht2 h1 h2
    have hnone1 : List.find? (fun p => p.title == t1) s.pages = none :=
      List.find?_eq_none.mpr (fun p hp => by simpa using ht1 p hp)
    have hnone2 : List.find? (fun p => p.title == t2) s.pages = none :=
      List.find?_eq_none.mpr (fun p hp => by simpa using ht2 p hp)
    have hfind : find_page s t1 = none := by
      simp [find_page, hnone1]
    simp only [publish_page, hfind, create_page] at h1
    by_cases hpar : cfg.parent_page ≠ "" ∧ (find_page s cfg.parent_page).isNone
    · simp [hpar] at h1
    · simp only [if_neg hpar, Except.ok.injEq, Prod.mk.injEq] at h1
      obtain ⟨rfl, rfl⟩ := h1
      have hfind1 : find_page ⟨s.pages ++ [⟨s.nextId, t1, 1, b1⟩], s.nextId + 1⟩ t2 =
          none := by
        simp [find_page, List.find?_append, hnone2, hne]
      simp only [publish_page, hfind1, create_page] at h2
      by_cases hpar2 : cfg.parent_page ≠ "" ∧
          (find_page ⟨s.pages ++ [⟨s.nextId, t1, 1, b1⟩], s.nextId + 1⟩
            cfg.parent_page).isNone
      · simp [hpar2] at h2
      · simp only [if_neg hpar2, Except.ok.injEq, Prod.mk.injEq] at h2
        obtain ⟨rfl, rfl⟩ := h2
        exact Nat.ne_of_lt (Nat.lt_succ_self _)

/-- Witness for C2: publishing "A" twice from the empty store with no
configured parent leaves one page titled "A" at version 2, with a stable
page id. -/
theorem C2_idempotent_upsert_witness :
    (0 : Nat) = 0 ∧ countTitled ⟨[⟨0, "A", 2, "y"⟩], 1⟩ "A" = 1 ∧
    find_page ⟨[⟨0, "A", 1, "x"⟩], 1⟩ "A" = some (0, 1) ∧
    find_page ⟨[⟨0, "A", 2, "y"⟩], 1⟩ "A" = some (0, 2) :=
  C2_idempotent_upsert.2.1 ⟨""⟩ ⟨[], 0⟩ "A" "x" "y"
    ⟨[⟨0, "A", 1, "x"⟩], 1⟩ ⟨[⟨0, "A", 2, "y"⟩], 1⟩ 0 0
    (by simp) (by simp) rfl rfl

/-- `parseCategories` succeeds exactly when every category value is an
object. -/
theorem parseCategories_ok (ms : List (String × Json)) :
    (∃ r, parseCategories ms = .ok r) ↔
      ∀ kv ∈ ms, (Json.as_object kv.2).isSome = true := by
  induction ms with
  | nil => simp [parseCategories]
  | cons kv rest ih =>
    cases hobj : Json.as_object kv.2 with
    | none =>
      simp only [parseCategories, hobj]
      constructor
      · rintro ⟨r, hr⟩
        cases hr
      · intro h
        have := h kv (by simp)
        rw [hobj] at this
        cases this
    | some cat =>
      simp only [parseCategories, hobj]
      constructor
      · rintro ⟨r, hr⟩
        intro kv2 hkv2
        rcases List.mem_cons.mp hkv2 with rfl | hmem
        · simp [hobj]
        · rcases hrest : parseCategories rest with e | r2
          · rw [hrest] at hr
            cases hr
          · exact (ih.mp ⟨r2, hrest⟩) kv2 hmem
      · intro h
        rcases ih.mpr (fun kv2 hkv2 => h kv2 (List.mem_cons_of_mem _ hkv2)) with ⟨r2, hr2⟩
        exact ⟨(kv.1, parseCategory cat) :: r2, by simp [hr2, Except.map]⟩

/-- C4: `parse_diff_data` fails exactly when the root is not an object or
some category value is not an object; "added"/"removed" default to empty when
absent or not arrays; and a "changed" array with one well-formed entry and
one entry missing "code" parses to exactly one `ChangedItem` instead of
failing. -/
theorem C4_parse_errors :
    (∀ root : Json, (∃ r, parse_diff_data root = .ok r) ↔
      (∃ ms, root = Json.obj ms ∧ ∀ kv ∈ ms, (Json.as_object kv.2).isSome = true)) ∧
    (∀ cat : List (String × Json),
      ((objGet cat "added").bind Json.as_array = none →
        (parseCategory cat).added = []) ∧
      ((objGet cat "removed").bind Json.as_array = none →
        (parseCategory cat).removed = [])) ∧
    parse_diff_data (Json.obj [("attributes", Json.obj [("changed", Json.arr
        [Json.obj [("code", Json.str "x"), ("changes", Json.obj [])],
         Json.obj [("changes", Json.obj [])]])])]) =
      .ok [("attributes", ⟨[], [], [⟨"x", [], []⟩]⟩)] := by
  refine ⟨?_, ?_, rfl⟩
  · intro root
    cases root with
    | obj ms =>
      simp only [parse_diff_data, Json.as_object]
      rw [parseCategories_ok ms]
      constructor
      · intro h
        exact ⟨ms, rfl, h⟩
      · rintro ⟨ms2, hms, h⟩
        cases hms
        exact h
    | null => simp [parse_diff_data, Json.as_object]
    | bool b => simp [parse_diff_data, Json.as_object]
    | num n => simp [parse_diff_data, Json.as_object]
    | str s => simp [parse_diff_data, Json.as_object]
    | arr es => simp [parse_diff_data, Json.as_object]
  · intro cat
    constructor
    · intro h
      simp [parseCategory, h]
    · intro h
      simp [parseCategory, h]

/-- Witness for C4: a well-formed two-category payload parses successfully;
a category with a non-array "added" parses it as empty. -/
theorem C4_parse_errors_witness :
    ((∃ r, parse_diff_data (Json.obj [("a", Json.obj [])]) = .ok r) ↔
      (∃ ms, Json.obj [("a", Json.obj [])] = Json.obj ms ∧
        ∀ kv ∈ ms, (Json.as_object kv.2).isSome = true)) ∧
    (parseCategory [("added", Json.str "nope")]).added = [] :=
  ⟨C4_parse_errors.1 (Json.obj [("a", Json.obj [])]),
   (C4_parse_errors.2.1 [("added", Json.str "nope")]).1 rfl⟩

/-- Membership in the first-seen column accumulator of `itemTableColumns`. -/
theorem mem_columns_foldl_inner (props : List (String × String)) (cols : List String)
    (col : String) :
    col ∈ props.foldl (fun cols kv =>
        if cols.contains kv.1 then cols else cols ++ [kv.1]) cols ↔
      col ∈ cols ∨ col ∈ props.map Prod.fst := by
  induction props generalizing cols with
  | nil => simp
  | cons kv rest ih =>
    simp only [List.foldl_cons, ih, List.map_cons, List.mem_cons]
    by_cases h : cols.contains kv.1
    · simp only [if_pos h]
      constructor
      · rintro (hc | hr)
        · exact Or.inl hc
        · exact Or.inr (Or.inr hr)
      · rintro (hc | rfl | hr)
        · exact Or.inl hc
        · exact Or.inl (by simpa using h)
        · exact Or.inr hr
    · simp only [if_neg h, List.mem_append, List.mem_singleton]
      tauto

/-- Membership in `itemTableColumns`: the union of the keys. -/
theorem mem_itemTableColumns (aps : List (List (String × String))) (col : String) :
    col ∈ itemTableColumns aps ↔ ∃ props ∈ aps, col ∈ props.map Prod.fst := by
  have main : ∀ (aps : List (List (String × String))) (cols : List String),
      col ∈ aps.foldl (fun cols props => props.foldl (fun cols kv =>
        if cols.contains kv.1 then cols else cols ++ [kv.1]) cols) cols ↔
        col ∈ cols ∨ ∃ props ∈ aps, col ∈ props.map Prod.fst := by
    intro aps
    induction aps with
    | nil => simp
    | cons props rest ih =>
      intro cols
      simp only [List.foldl_cons, ih, mem_columns_foldl_inner]
      constructor
      · rintro ((hc | hp) | hr)
        · exact Or.inl hc
        · exact Or.inr ⟨props, by simp, hp⟩
        · rcases hr with ⟨q, hq, hcq⟩
          exact Or.inr ⟨q, by simp [hq], hcq⟩
      · rintro (hc | ⟨q, hq, hcq⟩)
        · exact Or.inl (Or.inl hc)
        · rcases List.mem_cons.mp hq with rfl | hmem
          · exact Or.inl (Or.inr hcq)
          · exact Or.inr ⟨q, hmem, hcq⟩
  simp only [itemTableColumns]
  rw [main aps []]
  simp

/-- C5: the column set of an item table is the union of the extracted
property keys over all items; a column the item has no value for renders the
"—" placeholder, never an empty cell; and the two-item example renders
columns [code, type, group] in first-seen order with item b's "type" cell
showing the placeholder. -/
theorem C5_column_union :
    (∀ (items : List Json) (col : String),
      col ∈ itemTableColumns (items.map extract_item_properties) ↔
        ∃ item ∈ items, col ∈ (extract_item_properties item).map Prod.fst) ∧
    (∀ (props : List (String × String)) (col : String),
      (∀ kv ∈ props, kv.1 ≠ col) →
      itemCell props col = "—" ∧ itemCell props col ≠ "") ∧
    itemTableColumns ([Json.obj [("code", Json.str "a"), ("type", Json.str "text")],
        Json.obj [("code", Json.str "b"), ("group", Json.str "g")]].map
        extract_item_properties) = ["code", "type", "group"] ∧
    itemCell (extract_item_properties
      (Json.obj [("code", Json.str "b"), ("group", Json.str "g")])) "type" = "—" := by
  refine ⟨?_, ?_, rfl, rfl⟩
  · intro items col
    rw [mem_itemTableColumns]
    constructor
    · rintro ⟨props, hp, hc⟩
      rcases List.mem_map.mp hp with ⟨item, hi, rfl⟩
      exact ⟨item, hi, hc⟩
    · rintro ⟨item, hi, hc⟩
      exact ⟨extract_item_properties item, List.mem_map.mpr ⟨item, hi, rfl⟩, hc⟩
  · intro props col h
    have hfind : props.reverse.find? (fun kv => kv.1 == col) = none :=
      List.find?_eq_none.mpr (fun kv hkv => by
        simpa using h kv (List.mem_reverse.mp hkv))
    constructor
    · simp [itemCell, propLookup, hfind]
    · simp [itemCell, propLookup, hfind]

/-- Witness for C5: the placeholder conjunct at a concrete property list. -/
theorem C5_column_union_witness :
    itemCell [("code", "a")] "type" = "—" ∧ itemCell [("code", "a")] "type" ≠ "" :=
  C5_column_union.2.1 [("code", "a")] "type" (by decide)

/-- `lexLt` is asymmetric. -/
theorem lexLt_asymm (x : List Char) :
    ∀ (y : List Char), lexLt x y = true → lexLt y x = false := by
  induction x with
  | nil =>
    intro y h
    cases y with
    | nil => simp [lexLt] at h
    | cons b bs => rfl
  | cons a as ih =>
    intro y h
    cases y with
    | nil => simp [lexLt] at h
    | cons b bs =>
      simp only [lexLt] at h ⊢
      by_cases hab : a < b
      · rw [if_neg (lt_asymm hab), if_pos hab]
      · by_cases hba : b < a
        · rw [if_neg hab, if_pos hba] at h
          cases h
        · rw [if_neg hab, if_neg hba] at h
          rw [if_neg hba, if_neg hab]
          exact ih bs h

/-- `lexLt` is transitive. -/
theorem lexLt_trans (x : List Char) :
    ∀ (y z : List Char), lexLt x y = true → lexLt y z = true → lexLt x z = true := by
  induction x with
  | nil =>
    intro y z h1 h2
    cases y with
    | nil => simp [lexLt] at h1
    | cons b bs =>
      cases z with
      | nil => simp [lexLt] at h2
      | cons c cs => rfl
  | cons a as ih =>
    intro y z h1 h2
    cases y with
    | nil => simp [lexLt] at h1
    | cons b bs =>
      cases z with
      | nil => simp [lexLt] at h2
      | cons c cs =>
        simp only [lexLt] at h1 h2 ⊢
        by_cases hab : a < b
        · by_cases hbc : b < c
          · rw [if_pos (lt_trans hab hbc)]
          · by_cases hcb : c < b
            · rw [if_neg hbc, if_pos hcb] at h2
              cases h2
            · have heq : b = c := le_antisymm (not_lt.mp hcb) (not_lt.mp hbc)
              rw [if_pos (heq ▸ hab)]
        · by_cases hba : b < a
          · rw [if_neg hab, if_pos hba] at h1
            cases h1
          · have heq : a = b := le_antisymm (not_lt.mp hba) (not_lt.mp hab)
            subst heq
            rw [if_neg hab, if_neg hba] at h1
            by_cases hac : a < c
            · rw [if_pos hac]
            · by_cases hca : c < a
              · rw [if_neg hac, if_pos hca] at h2
                cases h2
              · rw [if_neg hac, if_neg hca] at h2 ⊢
                exact ih bs cs h1 h2

/-- Two lists neither of which is `lexLt` the other are equal. -/
theorem lexLt_conn (x : List Char) :
    ∀ (y : List Char), lexLt x y = false → lexLt y x = false → x = y := by
  induction x with
  | nil =>
    intro y h1 _
    cases y with
    | nil => rfl
    | cons b bs => simp [lexLt] at h1
  | cons a as ih =>
    intro y h1 h2
    cases y with
    | nil => simp [lexLt] at h2
    | cons b bs =>
      simp only [lexLt] at h1 h2
      by_cases hab : a < b
      · rw [if_pos hab] at h1
        cases h1
      · by_cases hba : b < a
        · rw [if_pos hba] at h2
          cases h2
        · have heq : a = b := le_antisymm (not_lt.mp hba) (not_lt.mp hab)
          subst heq
          rw [if_neg hab, if_neg hba] at h1
          rw [if_neg hba, if_neg hab] at h2
          rw [ih bs h1 h2]

/-- `lowerLe` is total. -/
theorem lowerLe_total (a b : String) : lowerLe a b = true ∨ lowerLe b a = true := by
  simp only [lowerLe, Bool.not_eq_true']
  by_cases h : lexLt (toLowerStr b).data (toLowerStr a).data = true
  · exact Or.inr (lexLt_asymm _ _ h)
  · exact Or.inl (Bool.not_eq_true _ ▸ h)

/-- `lowerLe` is transitive. -/
theorem lowerLe_trans (a b c : String) :
    lowerLe a b = true → lowerLe b c = true → lowerLe a c = true := by
  simp only [lowerLe, Bool.not_eq_true']
  intro h1 h2
  by_cases hca : lexLt (toLowerStr c).data (toLowerStr a).data = true
  · by_cases h3 : lexLt (toLowerStr a).data (toLowerStr b).data = true
    · rw [lexLt_trans _ _ _ hca h3] at h2
      cases h2
    · have heq := lexLt_conn _ _ (Bool.not_eq_true _ ▸ h3) h1
      rw [← heq] at h2
      rw [h2] at hca
      cases hca
  · exact Bool.not_eq_true _ ▸ hca

/-- `orderedInsert` on category entries commutes with taking names. -/
theorem map_fst_orderedInsert (x : String × CategoryDiff)
    (l : List (String × CategoryDiff)) :
    (List.orderedInsert (fun a b => lowerLe a.1 b.1 = true) x l).map Prod.fst =
      List.orderedInsert (fun a b => lowerLe a b = true) x.1 (l.map Prod.fst) := by
  induction l with
  | nil => rfl
  | cons y ys ih =>
    simp only [List.orderedInsert, List.map_cons]
    by_cases h : lowerLe x.1 y.1 = true
    · rw [if_pos h, if_pos h]
      simp
    · rw [if_neg h, if_neg h]
      simp [ih]

/-- `sortCategories` commutes with taking names. -/
theorem map_fst_sortCategories (l : DiffReport) :
    (sortCategories l).map Prod.fst =
      List.insertionSort (fun a b => lowerLe a b = true) (l.map Prod.fst) := by
  induction l with
  | nil => rfl
  | cons x xs ih =>
    simp only [sortCategories, List.insertionSort, List.map_cons] at *
    rw [← ih]
    exact map_fst_orderedInsert x _

/-- Case analysis for a permutation of a two-element list. -/
theorem perm_pair_cases {α : Type} {y z : α} {l : List α} (h : l.Perm [y, z]) :
    l = [y, z] ∨ l = [z, y] := by
  have hlen : l.length = 2 := by simpa using h.length_eq
  match l, hlen with
  | [b, c], _ =>
    have hb : b ∈ [y, z] := h.subset (by simp)
    simp only [List.mem_cons, List.not_mem_nil, or_false] at hb
    rcases hb with rfl | rfl
    · have h2 := List.perm_singleton.mp ((List.perm_cons b).mp h)
      simp only [List.cons.injEq, and_true] at h2
      exact Or.inl (by rw [h2])
    · have hc : c ∈ [y, b] := h.subset (by simp)
      simp only [List.mem_cons, List.not_mem_nil, or_false] at hc
      rcases hc with rfl | rfl
      · exact Or.inr rfl
      · have hy : y ∈ [c, c] := h.symm.subset (by simp)
        have hyc : y = c := by simpa using hy
        subst hyc
        exact Or.inl rfl

/-- Case analysis for a permutation of a three-element list. -/
theorem perm_triple_cases {α : Type} {x y z : α} {l : List α}
    (h : l.Perm [x, y, z]) :
    l = [x, y, z] ∨ l = [x, z, y] ∨ l = [y, x, z] ∨ l = [y, z, x] ∨
      l = [z, x, y] ∨ l = [z, y, x] := by
  have hlen : l.length = 3 := by simpa using h.length_eq
  match l, hlen with
  | [a, b, c], _ =>
    have ha : a ∈ [x, y, z] := h.subset (by simp)
    simp only [List.mem_cons, List.not_mem_nil, or_false] at ha
    rcases ha with rfl | rfl | rfl
    · have h2 := (List.perm_cons a).mp h
      rcases perm_pair_cases h2 with h3 | h3 <;>
        simp only [List.cons.injEq, and_true] at h3 <;>
        obtain ⟨rfl, rfl⟩ := h3
      · exact Or.inl rfl
      · exact Or.inr (Or.inl rfl)
    · have hsw : ([x, a, z] : List α).Perm (a :: [x, z]) := List.Perm.swap a x [z]
      have h2 := (List.perm_cons a).mp (h.trans hsw)
      rcases perm_pair_cases h2 with h3 | h3 <;>
        simp only [List.cons.injEq, and_true] at h3 <;>
        obtain ⟨rfl, rfl⟩ := h3
      · exact Or.inr (Or.inr (Or.inl rfl))
      · exact Or.inr (Or.inr (Or.inr (Or.inl rfl)))
    · have hsw : ([x, y, a] : List α).Perm (a :: [x, y]) := by
        have s1 : ([x, y, a] : List α).Perm (x :: a :: [y]) :=
          List.Perm.cons x (List.Perm.swap a y [])
        exact s1.trans (List.Perm.swap a x [y])
      have h2 := (List.perm_cons a).mp (h.trans hsw)
      rcases perm_pair_cases h2 with h3 | h3 <;>
        simp only [List.cons.injEq, and_true] at h3 <;>
        obtain ⟨rfl, rfl⟩ := h3
      · exact Or.inr (Or.inr (Or.inr (Or.inr (Or.inl rfl))))
      · exact Or.inr (Or.inr (Or.inr (Or.inr (Or.inr rfl))))

/-- C3: rendered diff-page output always orders its category sections by the
case-insensitive lexicographic comparison of the category name, the summary
table rows use the same order, and any report whose categories are a
permutation of ["Zebra", "apple", "Mango"] renders its sections as
apple, Mango, Zebra regardless of insertion order. -/
theorem C3_section_ordering :
    (∀ report : DiffReport,
      (diffSectionOrder report).Pairwise (fun a b => lowerLe a b = true)) ∧
    (∀ report : DiffReport, summaryRowOrder report = diffSectionOrder report) ∧
    (∀ report : DiffReport,
      (report.map Prod.fst).Perm ["Zebra", "apple", "Mango"] →
      diffSectionOrder report = ["apple", "Mango", "Zebra"]) := by
  haveI htot : IsTotal (String × CategoryDiff) (fun a b => lowerLe a.1 b.1 = true) :=
    ⟨fun a b => lowerLe_total a.1 b.1⟩
  haveI htr : IsTrans (String × CategoryDiff) (fun a b => lowerLe a.1 b.1 = true) :=
    ⟨fun a b c => lowerLe_trans a.1 b.1 c.1⟩
  refine ⟨?_, fun _ => rfl, ?_⟩
  · intro report
    have hs := List.sorted_insertionSort
      (fun (a b : String × CategoryDiff) => lowerLe a.1 b.1 = true) report
    exact List.Pairwise.map Prod.fst (fun a b hab => hab) hs
  · intro report h
    rw [diffSectionOrder, map_fst_sortCategories]
    rcases perm_triple_cases h with h6 | h6 | h6 | h6 | h6 | h6 <;> rw [h6] <;> decide

/-- Witness for C3: the permutation conjunct at a shuffled insertion order. -/
theorem C3_section_ordering_witness :
    diffSectionOrder [("Mango", ⟨[], [], []⟩), ("Zebra", ⟨[], [], []⟩),
      ("apple", ⟨[], [], []⟩)] = ["apple", "Mango", "Zebra"] :=
  C3_section_ordering.2.2 [("Mango", ⟨[], [], []⟩), ("Zebra", ⟨[], [], []⟩),
    ("apple", ⟨[], [], []⟩)] (by decide)

/-- C8 counterexample: an item whose "labels" sub-object has locale "a" and
which also has a top-level field literally named "label (a)" produces the
label "label (a)" twice, so the extractor can emit duplicate labels. -/
theorem C8_duplicate_label_counterexample :
    extract_item_properties (Json.obj [("label (a)", Json.str "v"),
        ("labels", Json.obj [("a", Json.str "w")])]) =
      [("label (a)", "w"), ("label (a)", "v")] ∧
    ¬ ((extract_item_properties (Json.obj [("label (a)", Json.str "v"),
        ("labels", Json.obj [("a", Json.str "w")])])).map Prod.fst).Nodup := by
  constructor
  · rfl
  · decide

/-- The first components produced by a `filterMap` that keeps the mapped key
form a sublist of the mapped keys of the input. -/
theorem map_fst_filterMap_sublist {α β γ : Type} (g : α → Option (β × γ))
    (f : α → β) (hg : ∀ a p, g a = some p → p.1 = f a) (l : List α) :
    ((l.filterMap g).map Prod.fst).Sublist (l.map f) := by
  induction l with
  | nil => simp
  | cons a rest ih =>
    cases hga : g a with
    | none =>
      rw [List.filterMap_cons, hga, List.map_cons]
      exact ih.cons (f a)
    | some p =>
      rw [List.filterMap_cons, hga, List.map_cons, List.map_cons, hg a p hga]
      exact ih.cons₂ (f a)

/-- The labels of the priority block are among the three priority fields. -/
theorem priorityProps_keys_sublist (ms : List (String × Json)) :
    ((priorityProps ms).map Prod.fst).Sublist ["code", "type", "group"] := by
  have h := map_fst_filterMap_sublist
    (fun f => match objGet ms f with
      | some v => if v.is_null then none else some (f, format_value v)
      | none => none)
    id (fun a p hp => by
      cases hv : objGet ms a with
      | none =>
        simp only [hv] at hp
        cases hp
      | some v =>
        simp only [hv] at hp
        by_cases hn : v.is_null = true
        · simp only [if_pos hn] at hp
          cases hp
        · simp only [if_neg hn, Option.some.injEq] at hp
          rw [← hp]
          rfl) ["code", "type", "group"]
  simpa [priorityProps] using h

/-- The labels of the labels block are the locale keys, tagged. -/
theorem labelProps_keys (ms : List (String × Json)) :
    (labelProps ms).map Prod.fst =
      (labelKeys ms).map (fun loc => "label (" ++ loc ++ ")") := by
  simp [labelProps, labelKeys, List.map_map, Function.comp]

/-- The locale tag is injective in the locale. -/
theorem labelTag_inj : Function.Injective (fun loc => "label (" ++ loc ++ ")") := by
  intro a b h
  have hd := congrArg String.data h
  simp only [String.data_append] at hd
  have hd2 := List.append_cancel_right hd
  have hd3 := List.append_cancel_left hd2
  cases a
  cases b
  exact congrArg String.mk hd3

/-- A label from the remaining-fields block is a non-skip-list key of the
item. -/
theorem mem_otherProps_keys {ms : List (String × Json)} {k : String}
    (h : k ∈ (otherProps ms).map Prod.fst) :
    k ∈ ms.map Prod.fst ∧ k ∉ skip_fields := by
  rcases List.mem_map.mp h with ⟨p, hp, rfl⟩
  rcases List.mem_filterMap.mp hp with ⟨kv, hkv, hg⟩
  by_cases c1 : skip_fields.contains kv.1
  · rw [if_pos c1] at hg
    cases hg
  · rw [if_neg c1] at hg
    have hfst : p.1 = kv.1 := by
      by_cases c2 : kv.2.is_null = true
      · rw [if_pos c2] at hg; cases hg
      · rw [if_neg c2] at hg
        by_cases c3 : kv.2.as_bool == some false
        · rw [if_pos c3] at hg; cases hg
        · rw [if_neg c3] at hg
          by_cases c4 : (kv.2.as_array).any List.isEmpty
          · rw [if_pos c4] at hg; cases hg
          · rw [if_neg c4] at hg
            by_cases c5 : (kv.2.as_object).any List.isEmpty
            · rw [if_pos c5] at hg; cases hg
            · rw [if_neg c5] at hg
              injection hg with hg2
              rw [← hg2]
    rw [hfst]
    refine ⟨List.mem_map.mpr ⟨kv, hkv, rfl⟩, ?_⟩
    intro hmem
    exact c1 (by simpa using hmem)

/-- The labels of the remaining-fields block are a sublist of the item's
keys. -/
theorem otherProps_keys_sublist (ms : List (String × Json)) :
    ((otherProps ms).map Prod.fst).Sublist (ms.map Prod.fst) := by
  refine map_fst_filterMap_sublist _ Prod.fst (fun kv p hg => ?_) ms
  by_cases c1 : skip_fields.contains kv.1
  · rw [if_pos c1] at hg
    cases hg
  · rw [if_neg c1] at hg
    by_cases c2 : kv.2.is_null = true
    · rw [if_pos c2] at hg
      cases hg
    · rw [if_neg c2] at hg
      by_cases c3 : kv.2.as_bool == some false
      · rw [if_pos c3] at hg
        cases hg
      · rw [if_neg c3] at hg
        by_cases c4 : (kv.2.as_array).any List.isEmpty
        · rw [if_pos c4] at hg
          cases hg
        · rw [if_neg c4] at hg
          by_cases c5 : (kv.2.as_object).any List.isEmpty
          · rw [if_pos c5] at hg
            cases hg
          · rw [if_neg c5] at hg
            injection hg with hg2
            rw [← hg2]

/-- C8 amended: the extractor never fails — a non-object item degrades to the
single synthetic ("value", stringified item) pair — and the noise-suppression
example {"flag": false, "list": [], "obj": {}} yields zero pairs; no label
occurs twice provided the item's keys and locale keys are unique (as JSON
objects guarantee) and no non-skip-list field is literally named
"label (loc)" for a locale loc of the "labels" sub-object (the
counterexample shows such a field duplicates the flattened label entry). -/
theorem C8_extractor_properties (item : Json) (ms : List (String × Json)) :
    (item = Json.obj ms →
      (ms.map Prod.fst).Nodup →
      (labelKeys ms).Nodup →
      (∀ k ∈ ms.map Prod.fst, k ∉ skip_fields →
        ∀ loc ∈ labelKeys ms, k ≠ "label (" ++ loc ++ ")") →
      ((extract_item_properties item).map Prod.fst).Nodup) ∧
    (item.as_object = none →
      extract_item_properties item = [("value", serialize item)]) ∧
    extract_item_properties (Json.obj [("flag", Json.bool false),
      ("list", Json.arr []), ("obj", Json.obj [])]) = [] := by
  refine ⟨?_, ?_, rfl⟩
  · rintro rfl hms hlk hcol
    have hPmem : ∀ k ∈ (priorityProps ms).map Prod.fst,
        k = "code" ∨ k = "type" ∨ k = "group" := fun k hk => by
      simpa using (priorityProps_keys_sublist ms).subset hk
    have hP : ((priorityProps ms).map Prod.fst).Nodup :=
      (priorityProps_keys_sublist ms).nodup (by decide)
    have hL : ((labelProps ms).map Prod.fst).Nodup := by
      rw [labelProps_keys]
      exact hlk.map labelTag_inj
    have hO : ((otherProps ms).map Prod.fst).Nodup :=
      (otherProps_keys_sublist ms).nodup hms
    have hLO : ((labelProps ms).map Prod.fst).Disjoint
        ((otherProps ms).map Prod.fst) := by
      intro k hkL hkO
      rcases List.mem_map.mp (by rw [← labelProps_keys]; exact hkL :
          k ∈ (labelKeys ms).map (fun loc => "label (" ++ loc ++ ")")) with
        ⟨loc, hloc, htag⟩
      have hk := mem_otherProps_keys hkO
      exact hcol k hk.1 hk.2 loc hloc htag.symm
    have hPL : ((priorityProps ms).map Prod.fst).Disjoint
        ((labelProps ms).map Prod.fst) := by
      intro k hkP hkL
      rcases List.mem_map.mp (by rw [← labelProps_keys]; exact hkL :
          k ∈ (labelKeys ms).map (fun loc => "label (" ++ loc ++ ")")) with
        ⟨loc, _, htag⟩
      have hd := congrArg String.data htag
      rcases hPmem k hkP with rfl | rfl | rfl <;>
        simp [String.data_append] at hd
    have hPO : ((priorityProps ms).map Prod.fst).Disjoint
        ((otherProps ms).map Prod.fst) := by
      intro k hkP hkO
      have hk := mem_otherProps_keys hkO
      rcases hPmem k hkP with rfl | rfl | rfl <;>
        exact hk.2 (by decide)
    simp only [extract_item_properties, Json.as_object, List.map_append]
    rw [List.nodup_append]
    refine ⟨?_, hO, ?_⟩
    · rw [List.nodup_append]
      exact ⟨hP, hL, hPL⟩
    · rw [List.disjoint_append_left]
      exact ⟨hPO, hLO⟩
  · intro h
    cases item with
    | obj ms2 => simp [Json.as_object] at h
    | null => rfl
    | bool b => rfl
    | num n => rfl
    | str s => rfl
    | arr es => rfl

/-- Witness for C8: a well-formed item with a priority field, one label and
one extra field has pairwise-distinct labels; a bare string degrades to the
synthetic pair. -/
theorem C8_extractor_properties_witness :
    ((extract_item_properties (Json.obj [("code", Json.str "a"),
        ("labels", Json.obj [("en", Json.str "E")]),
        ("extra", Json.str "x")])).map Prod.fst).Nodup ∧
    extract_item_properties (Json.str "s") = [("value", serialize (Json.str "s"))] :=
  ⟨(C8_extractor_properties (Json.obj [("code", Json.str "a"),
      ("labels", Json.obj [("en", Json.str "E")]),
      ("extra", Json.str "x")]) [("code", Json.str "a"),
      ("labels", Json.obj [("en", Json.str "E")]),
      ("extra", Json.str "x")]).1 rfl (by decide) (by decide) (by decide),
   (C8_extractor_properties (Json.str "s") []).2.1 rfl⟩

/-- C6 counterexample: a changes object whose top-level key "a.b" contains a
literal dot collides with the nested path a → b, so the field path "a.b"
appears both among the flat changes and among the nested sub-diffs. -/
theorem C6_disjoint_counterexample :
    parse_changed_item (Json.obj [("code", Json.str "c"), ("changes", Json.obj [
        ("a.b", Json.obj [("old", Json.str "x"), ("new", Json.str "y")]),
        ("a", Json.obj [("b", Json.obj [("added", Json.arr [Json.str "z"])])])])]) =
      some ⟨"c", [⟨"a.b", "x", "y"⟩], [⟨"a.b", ["z"], []⟩]⟩ ∧
    "a.b" ∈ ([⟨"a.b", "x", "y"⟩] : List FieldChange).map FieldChange.field_path ∧
    "a.b" ∈ ([⟨"a.b", ["z"], []⟩] : List NestedFieldDiff).map
      NestedFieldDiff.field_path := by
  refine ⟨rfl, ?_, ?_⟩ <;> decide

mutual
/-- The field paths emitted by `flatten_changes` are the relative key
sequences of `segPaths` joined onto the current path. -/
theorem pathsCorrespond : ∀ (v : Json) (pre : String),
    ((flatten_changes pre v).1.map FieldChange.field_path =
      (segPaths v).1.map (joinPath pre)) ∧
    ((flatten_changes pre v).2.map NestedFieldDiff.field_path =
      (segPaths v).2.map (joinPath pre))
  | .obj ms, pre => by
    by_cases h1 : (containsKey ms "old" && containsKey ms "new") = true
    · simp [flatten_changes, segPaths, h1, joinPath]
    · by_cases h2 : ((objGet ms "added").any Json.is_array ||
          (objGet ms "removed").any Json.is_array) = true
      · simp [flatten_changes, segPaths, h1, h2, joinPath]
      · rw [show flatten_changes pre (.obj ms) = flattenMembers pre ms by
              simp [flatten_changes, h1, h2],
            show segPaths (.obj ms) = segMembers ms by
              simp [segPaths, h1, h2]]
        exact pathsCorrespondMembers ms pre
  | .null, _ => by simp [flatten_changes, segPaths]
  | .bool b, _ => by simp [flatten_changes, segPaths]
  | .num n, _ => by simp [flatten_changes, segPaths]
  | .str s, _ => by simp [flatten_changes, segPaths]
  | .arr es, _ => by simp [flatten_changes, segPaths]
/-- Member version of `pathsCorrespond`. -/
theorem pathsCorrespondMembers : ∀ (ms : List (String × Json)) (pre : String),
    ((flattenMembers pre ms).1.map FieldChange.field_path =
      (segMembers ms).1.map (joinPath pre)) ∧
    ((flattenMembers pre ms).2.map NestedFieldDiff.field_path =
      (segMembers ms).2.map (joinPath pre))
  | [], _ => by simp [flattenMembers, segMembers]
  | (k, v) :: rest, pre => by
    have h1 := pathsCorrespond v (pre ++ "." ++ k)
    have h2 := pathsCorrespondMembers rest pre
    simp only [flattenMembers, segMembers, List.map_append, List.map_map]
    constructor
    · rw [h1.1, h2.1]
      congr 1
    · rw [h1.2, h2.2]
      congr 1
end

/-- Paths of the top-level flattening loop are the `segMembers` sequences
rendered by `pathOfSegs`. -/
theorem topPathsCorrespond (ms : List (String × Json)) :
    ((flattenTop ms).1.map FieldChange.field_path =
      (segMembers ms).1.map pathOfSegs) ∧
    ((flattenTop ms).2.map NestedFieldDiff.field_path =
      (segMembers ms).2.map pathOfSegs) := by
  induction ms with
  | nil => simp [flattenTop, segMembers]
  | cons kv rest ih =>
    obtain ⟨k, v⟩ := kv
    have h1 := pathsCorrespond v k
    simp only [flattenTop, segMembers, List.map_append, List.map_map]
    constructor
    · rw [h1.1, ih.1]
      congr 1
    · rw [h1.2, ih.2]
      congr 1

/-- `joinPath` is appending the dot-prefixed suffix. -/
theorem joinPath_eq_append (ks : List String) :
    ∀ pre, joinPath pre ks = pre ++ encStr ks := by
  induction ks with
  | nil =>
    intro pre
    simp [joinPath, encStr, String.append_empty]
  | cons k ks ih =>
    intro pre
    have hstep : joinPath pre (k :: ks) = joinPath (pre ++ "." ++ k) ks := rfl
    rw [hstep, ih, encStr]
    simp [String.append_assoc]

/-- Two strings with the same character data are equal. -/
theorem string_data_ext (s t : String) (h : s.data = t.data) : s = t := by
  cases s
  exact congrArg String.mk h

/-- A dot-free key has no `.` among its characters. -/
theorem dotFreeKey_not_mem {k : String} (h : dotFreeKey k = true) : '.' ∉ k.data := by
  simpa [dotFreeKey] using h

/-- Splitting a concatenation of a dot-free part and a dot-led (or empty)
suffix is unambiguous. -/
theorem dotfree_append_inj (a : List Char) :
    ∀ (b s t : List Char), '.' ∉ a → '.' ∉ b →
      (s = [] ∨ ∃ r, s = '.' :: r) → (t = [] ∨ ∃ r, t = '.' :: r) →
      a ++ s = b ++ t → a = b ∧ s = t := by
  induction a with
  | nil =>
    intro b s t _ hb hs _ heq
    cases b with
    | nil => exact ⟨rfl, by simpa using heq⟩
    | cons c cb =>
      rcases hs with rfl | ⟨r, rfl⟩
      · cases heq
      · simp only [List.nil_append, List.cons_append, List.cons.injEq] at heq
        exact absurd (heq.1 ▸ List.mem_cons_self c cb) (heq.1 ▸ hb)
  | cons x xs ih =>
    intro b s t ha hb hs ht heq
    cases b with
    | nil =>
      rcases ht with rfl | ⟨r, rfl⟩
      · cases heq
      · simp only [List.nil_append, List.cons_append, List.cons.injEq] at heq
        exact absurd (heq.1 ▸ List.mem_cons_self x xs) (heq.1 ▸ ha)
    | cons c cb =>
      simp only [List.cons_append, List.cons.injEq] at heq
      obtain ⟨h1, h2⟩ := heq
      obtain ⟨h3, h4⟩ := ih cb s t
        (fun hm => ha (List.mem_cons_of_mem x hm))
        (fun hm => hb (List.mem_cons_of_mem c hm)) hs ht h2
      exact ⟨by rw [h1, h3], h4⟩

/-- Character data of `encStr` on a cons. -/
theorem encStr_data (k : String) (ks : List String) :
    (encStr (k :: ks)).data = '.' :: (k.data ++ (encStr ks).data) := by
  simp [encStr, String.data_append]

/-- `encStr` output is empty or starts with a dot. -/
theorem encStr_suffixForm (ks : List String) :
    (encStr ks).data = [] ∨ ∃ r, (encStr ks).data = '.' :: r := by
  cases ks with
  | nil => exact Or.inl rfl
  | cons k ks => exact Or.inr ⟨_, encStr_data k ks⟩

/-- `encStr` is injective on dot-free key sequences. -/
theorem encStr_inj (ks : List String) :
    ∀ (ls : List String),
      (∀ k ∈ ks, dotFreeKey k = true) → (∀ l ∈ ls, dotFreeKey l = true) →
      encStr ks = encStr ls → ks = ls := by
  induction ks with
  | nil =>
    intro ls _ _ heq
    cases ls with
    | nil => rfl
    | cons l ls2 =>
      have hd := congrArg String.data heq
      rw [encStr_data] at hd
      cases hd
  | cons k ks2 ih =>
    intro ls hks hls heq
    cases ls with
    | nil =>
      have hd := congrArg String.data heq
      rw [encStr_data] at hd
      cases hd
    | cons l ls2 =>
      have hd := congrArg String.data heq
      rw [encStr_data, encStr_data] at hd
      simp only [List.cons.injEq, true_and] at hd
      obtain ⟨hk, hE⟩ := dotfree_append_inj k.data l.data
        (encStr ks2).data (encStr ls2).data
        (dotFreeKey_not_mem (hks k (by simp)))
        (dotFreeKey_not_mem (hls l (by simp)))
        (encStr_suffixForm ks2) (encStr_suffixForm ls2) hd
      rw [string_data_ext k l hk,
        ih ls2 (fun a ha => hks a (List.mem_cons_of_mem k ha))
          (fun a ha => hls a (List.mem_cons_of_mem l ha))
          (string_data_ext _ _ hE)]

/-- `pathOfSegs` is injective on non-empty dot-free key sequences. -/
theorem pathOfSegs_inj (q1 q2 : List String)
    (h1 : ∀ s ∈ q1, dotFreeKey s = true) (h2 : ∀ s ∈ q2, dotFreeKey s = true)
    (hne1 : q1 ≠ []) (hne2 : q2 ≠ [])
    (heq : pathOfSegs q1 = pathOfSegs q2) : q1 = q2 := by
  match q1, q2 with
  | [], _ => exact absurd rfl hne1
  | _ :: _, [] => exact absurd rfl hne2
  | k1 :: r1, k2 :: r2 =>
    simp only [pathOfSegs] at heq
    rw [joinPath_eq_append, joinPath_eq_append] at heq
    have hd := congrArg String.data heq
    simp only [String.data_append] at hd
    obtain ⟨hk, hE⟩ := dotfree_append_inj k1.data k2.data
      (encStr r1).data (encStr r2).data
      (dotFreeKey_not_mem (h1 k1 (by simp)))
      (dotFreeKey_not_mem (h2 k2 (by simp)))
      (encStr_suffixForm r1) (encStr_suffixForm r2) hd
    rw [string_data_ext k1 k2 hk,
      encStr_inj r1 r2 (fun a ha => h1 a (List.mem_cons_of_mem k1 ha))
        (fun a ha => h2 a (List.mem_cons_of_mem k2 ha))
        (string_data_ext _ _ hE)]

/-- Every segment sequence of `segMembers` starts with the key of the member
it came from, followed by a sequence of that member's value. -/
theorem mem_segMembers_shape (ms : List (String × Json)) (q : List String)
    (hq : q ∈ (segMembers ms).1 ∨ q ∈ (segMembers ms).2) :
    ∃ kv ∈ ms, ∃ q2, q = kv.1 :: q2 ∧
      (q2 ∈ (segPaths kv.2).1 ∨ q2 ∈ (segPaths kv.2).2) := by
  induction ms with
  | nil => simp [segMembers] at hq
  | cons kv rest ih =>
    obtain ⟨k, v⟩ := kv
    simp only [segMembers, List.mem_append] at hq
    rcases hq with (hq | hq) | (hq | hq)
    · rcases List.mem_map.mp hq with ⟨q2, hq2, rfl⟩
      exact ⟨(k, v), by simp, q2, rfl, Or.inl hq2⟩
    · rcases ih (Or.inl hq) with ⟨kv2, hkv2, q2, rfl, hmem⟩
      exact ⟨kv2, List.mem_cons_of_mem _ hkv2, q2, rfl, hmem⟩
    · rcases List.mem_map.mp hq with ⟨q2, hq2, rfl⟩
      exact ⟨(k, v), by simp, q2, rfl, Or.inr hq2⟩
    · rcases ih (Or.inr hq) with ⟨kv2, hkv2, q2, rfl, hmem⟩
      exact ⟨kv2, List.mem_cons_of_mem _ hkv2, q2, rfl, hmem⟩

mutual
/-- In a well-formed change tree, every key of every emitted segment
sequence is dot-free. -/
theorem segKeys_dotFree : ∀ (v : Json), wfChangeTree v = true →
    ∀ q, (q ∈ (segPaths v).1 ∨ q ∈ (segPaths v).2) → ∀ s ∈ q, dotFreeKey s = true
  | .obj ms, hwf, q, hq, s, hs => by
    by_cases h1 : (containsKey ms "old" && containsKey ms "new") = true
    · simp only [segPaths, if_pos h1] at hq
      rcases hq with hq | hq
      · rcases List.mem_singleton.mp hq with rfl
        cases hs
      · cases hq
    · by_cases h2 : ((objGet ms "added").any Json.is_array ||
          (objGet ms "removed").any Json.is_array) = true
      · simp only [segPaths, if_neg h1, if_pos h2] at hq
        rcases hq with hq | hq
        · cases hq
        · rcases List.mem_singleton.mp hq with rfl
          cases hs
      · simp only [segPaths, if_neg h1, if_neg h2] at hq
        simp only [wfChangeTree, Bool.and_eq_true] at hwf
        exact segKeysMembers ms hwf.1.2 hwf.2 q hq s hs
  | .null, _, q, hq, s, hs => by simp [segPaths] at hq
  | .bool b, _, q, hq, s, hs => by simp [segPaths] at hq
  | .num n, _, q, hq, s, hs => by simp [segPaths] at hq
  | .str st, _, q, hq, s, hs => by simp [segPaths] at hq
  | .arr es, _, q, hq, s, hs => by simp [segPaths] at hq
/-- Member version of `segKeys_dotFree`. -/
theorem segKeysMembers : ∀ (ms : List (String × Json)),
    (ms.map Prod.fst).all dotFreeKey = true → wfChangeMembers ms = true →
    ∀ q, (q ∈ (segMembers ms).1 ∨ q ∈ (segMembers ms).2) →
    ∀ s ∈ q, dotFreeKey s = true
  | [], _, _, q, hq, s, hs => by simp [segMembers] at hq
  | (k, v) :: rest, hall, hwf, q, hq, s, hs => by
    simp only [List.map_cons, List.all_cons, Bool.and_eq_true] at hall
    simp only [wfChangeMembers, Bool.and_eq_true] at hwf
    simp only [segMembers, List.mem_append] at hq
    rcases hq with (hq | hq) | (hq | hq)
    · rcases List.mem_map.mp hq with ⟨q2, hq2, rfl⟩
      rcases List.mem_cons.mp hs with rfl | hs2
      · exact hall.1
      · exact segKeys_dotFree v hwf.1 q2 (Or.inl hq2) s hs2
    · exact segKeysMembers rest hall.2 hwf.2 q (Or.inl hq) s hs
    · rcases List.mem_map.mp hq with ⟨q2, hq2, rfl⟩
      rcases List.mem_cons.mp hs with rfl | hs2
      · exact hall.1
      · exact segKeys_dotFree v hwf.1 q2 (Or.inr hq2) s hs2
    · exact segKeysMembers rest hall.2 hwf.2 q (Or.inr hq) s hs
end

mutual
/-- In a well-formed change tree, no segment sequence is emitted both as a
change and as a nested sub-diff. -/
theorem segPaths_disj : ∀ (v : Json), wfChangeTree v = true →
    ∀ q ∈ (segPaths v).1, q ∉ (segPaths v).2
  | .obj ms, hwf, q, hq => by
    by_cases h1 : (containsKey ms "old" && containsKey ms "new") = true
    · simp only [segPaths, if_pos h1]
      simp
    · by_cases h2 : ((objGet ms "added").any Json.is_array ||
          (objGet ms "removed").any Json.is_array) = true
      · simp only [segPaths, if_neg h1, if_pos h2] at hq
        cases hq
      · simp only [segPaths, if_neg h1, if_neg h2] at hq ⊢
        simp only [wfChangeTree, Bool.and_eq_true] at hwf
        exact segMembers_disj ms hwf.1.1 hwf.2 q hq
  | .null, _, q, hq => by simp [segPaths] at hq
  | .bool b, _, q, hq => by simp [segPaths] at hq
  | .num n, _, q, hq => by simp [segPaths] at hq
  | .str st, _, q, hq => by simp [segPaths] at hq
  | .arr es, _, q, hq => by simp [segPaths] at hq
/-- Member version of `segPaths_disj`, using key uniqueness. -/
theorem segMembers_disj : ∀ (ms : List (String × Json)),
    distinctKeys (ms.map Prod.fst) = true → wfChangeMembers ms = true →
    ∀ q ∈ (segMembers ms).1, q ∉ (segMembers ms).2
  | [], _, _, q, hq => by simp [segMembers] at hq
  | (k, v) :: rest, hdk, hwf, q, hq => by
    intro hq2
    simp only [List.map_cons, distinctKeys, Bool.and_eq_true,
      Bool.not_eq_true'] at hdk
    simp only [wfChangeMembers, Bool.and_eq_true] at hwf
    have hknotin : ∀ kv ∈ rest, kv.1 ≠ k := by
      intro kv hkv heq
      have : (rest.map Prod.fst).contains k = true :=
        List.contains_iff_exists_mem_beq.mpr
          ⟨kv.1, List.mem_map.mpr ⟨kv, hkv, rfl⟩, by simp [heq]⟩
      rw [hdk.1] at this
      cases this
    simp only [segMembers, List.mem_append] at hq hq2
    rcases hq with hq | hq
    · rcases List.mem_map.mp hq with ⟨q1, hq1, rfl⟩
      rcases hq2 with hq2 | hq2
      · rcases List.mem_map.mp hq2 with ⟨q2, hq2a, hq2b⟩
        have : q2 = q1 := by
          injection hq2b
        exact segPaths_disj v hwf.1 q1 hq1 (this ▸ hq2a)
      · rcases mem_segMembers_shape rest (k :: q1) (Or.inr hq2) with
          ⟨kv2, hkv2, q3, heq3, _⟩
        injection heq3 with heq3a
        exact hknotin kv2 hkv2 heq3a.symm
    · rcases hq2 with hq2 | hq2
      · rcases List.mem_map.mp hq2 with ⟨q2, _, hq2b⟩
        rcases mem_segMembers_shape rest q (Or.inl hq) with
          ⟨kv2, hkv2, q3, rfl, _⟩
        injection hq2b with hq2c
        exact hknotin kv2 hkv2 hq2c.symm
      · exact segMembers_disj rest hdk.2 hwf.2 q hq hq2
end

/-- C6 amended: for a `ChangedItem` produced by the parser, the flat changes
and the nested sub-diffs carry disjoint field paths provided the "changes"
tree is well-formed: at every object node the keys are unique (as JSON maps
guarantee) and contain no "." character. The counterexample shows the claim
fails without the dot-free condition: a key with a literal dot forges the
path of a genuinely nested field. -/
theorem C6_changes_nested_disjoint (ms cms : List (String × Json))
    (ci : ChangedItem) :
    (objGet ms "changes").bind Json.as_object = some cms →
    wfChangeTree (Json.obj cms) = true →
    parse_changed_item (Json.obj ms) = some ci →
    ∀ p ∈ ci.changes.map FieldChange.field_path,
      p ∉ ci.nested_diffs.map NestedFieldDiff.field_path := by
  intro hch hwf hp
  have hobj : Json.as_object (Json.obj ms) = some ms := rfl
  cases hcode : (objGet ms "code").bind Json.as_str with
  | none => simp [parse_changed_item, hobj, hcode] at hp
  | some code =>
    simp only [parse_changed_item, hobj, hcode, hch,
      Option.some.injEq] at hp
    subst hp
    intro p hp1 hp2
    simp only at hp1 hp2
    rw [(topPathsCorrespond cms).1] at hp1
    rw [(topPathsCorrespond cms).2] at hp2
    rcases List.mem_map.mp hp1 with ⟨q1, hq1, rfl⟩
    rcases List.mem_map.mp hp2 with ⟨q2, hq2, hpq⟩
    simp only [wfChangeTree, Bool.and_eq_true] at hwf
    have hshape1 := mem_segMembers_shape cms q1 (Or.inl hq1)
    have hshape2 := mem_segMembers_shape cms q2 (Or.inr hq2)
    rcases hshape1 with ⟨kv1, _, r1, hq1e, _⟩
    rcases hshape2 with ⟨kv2, _, r2, hq2e, _⟩
    have hdf1 : ∀ s ∈ q1, dotFreeKey s = true :=
      segKeysMembers cms hwf.1.2 hwf.2 q1 (Or.inl hq1)
    have hdf2 : ∀ s ∈ q2, dotFreeKey s = true :=
      segKeysMembers cms hwf.1.2 hwf.2 q2 (Or.inr hq2)
    have hne1 : q1 ≠ [] := by rw [hq1e]; simp
    have hne2 : q2 ≠ [] := by rw [hq2e]; simp
    have hq12 : q2 = q1 := pathOfSegs_inj q2 q1 hdf2 hdf1 hne2 hne1 hpq
    subst hq12
    exact segMembers_disj cms hwf.1.1 hwf.2 q2 hq1 hq2

/-- Witness for C6: a changes tree with a leaf and a separate nested
sub-diff under dot-free keys keeps the two path lists disjoint. -/
theorem C6_changes_nested_disjoint_witness :
    "labels.en" ∉ (([⟨"tags", ["z"], []⟩] : List NestedFieldDiff)).map
      NestedFieldDiff.field_path :=
  C6_changes_nested_disjoint
    [("code", Json.str "c"), ("changes", Json.obj [
      ("labels", Json.obj [("en", Json.obj [("old", Json.str "A"),
        ("new", Json.str "B")])]),
      ("tags", Json.obj [("added", Json.arr [Json.str "z"])])])]
    [("labels", Json.obj [("en", Json.obj [("old", Json.str "A"),
        ("new", Json.str "B")])]),
     ("tags", Json.obj [("added", Json.arr [Json.str "z"])])]
    ⟨"c", [⟨"labels.en", "A", "B"⟩], [⟨"tags", ["z"], []⟩]⟩
    rfl (by decide) rfl "labels.en" (by decide)
